import Mathlib

/-!
Verification of the zonal-value finder core (src/app/page.tsx) against its
natural-language specification.  Strings are modelled as lists of characters;
JavaScript numbers are modelled as `Int` where the source only ever produces
integers (scores) and as `ℚ` where fractional values occur (coordinates,
distances).  Each definition is a shallow embedding of the source function of
the same (or clearly derived) name.
-/

/-- Strings are modelled as lists of characters. -/
abbrev Str := List Char

/-- Model of JavaScript `toLowerCase` at character level: ASCII uppercase
letters map to lowercase, every other character is unchanged (the source's
Unicode-aware lowering restricted to the ASCII range; it is the identity on
the remaining modelled characters). -/
def lowerChar (c : Char) : Char :=
  if 65 ≤ c.toNat ∧ c.toNat ≤ 90 then Char.ofNat (c.toNat + 32) else c

/-- Model of the regex class `\s`: space and the ASCII control whitespace
characters (tab, linefeed, vertical tab, formfeed, carriage return). -/
def isWsChar (c : Char) : Bool :=
  c = ' ' ∨ (9 ≤ c.toNat ∧ c.toNat ≤ 13)

/-- ASCII letter, modelling the regex class `\p{L}` on the modelled range. -/
def isLetterChar (c : Char) : Bool :=
  (65 ≤ c.toNat ∧ c.toNat ≤ 90) ∨ (97 ≤ c.toNat ∧ c.toNat ≤ 122)

/-- ASCII digit, modelling the regex class `\p{N}` on the modelled range. -/
def isDigitChar (c : Char) : Bool :=
  48 ≤ c.toNat ∧ c.toNat ≤ 57

/-- The characters kept by `norm`'s first replacement
(`[^\p{L}\p{N}\s.-]` is replaced by a space): letters, digits, whitespace,
dot and hyphen (page.tsx:59). -/
def keepChar (c : Char) : Bool :=
  isLetterChar c || isDigitChar c || isWsChar c || c = '.' || c = '-'

/-- `.replace(/[^\p{L}\p{N}\s.-]/gu, " ")`: every non-kept character becomes
a single space (page.tsx:59). -/
def replaceBad (s : Str) : Str :=
  s.map (fun c => if keepChar c then c else ' ')

/-- State machine for `.replace(/\s+/g, " ")`: the flag records whether we
are inside a whitespace run whose single replacement space has already been
emitted (page.tsx:60). -/
def collapseWsAux : Bool → Str → Str
  | _, [] => []
  | inRun, c :: rest =>
    if isWsChar c then
      if inRun then collapseWsAux true rest
      else ' ' :: collapseWsAux true rest
    else c :: collapseWsAux false rest

/-- `.replace(/\s+/g, " ")`: collapse each maximal whitespace run to one
space (page.tsx:60). -/
def collapseWs (s : Str) : Str := collapseWsAux false s

/-- `.trim()`: drop leading and trailing whitespace (page.tsx:61). -/
def trimWs (s : Str) : Str :=
  ((s.dropWhile isWsChar).reverse.dropWhile isWsChar).reverse

/-- `norm` from page.tsx:56-62: lower-case, replace characters outside
letters/digits/whitespace/dot/hyphen by spaces, collapse whitespace runs,
trim. -/
def normS (s : Str) : Str :=
  trimWs (collapseWs (replaceBad (s.map lowerChar)))

/-- `String.prototype.split(" ")` on a single-space separator. -/
def splitSp : Str → List Str
  | [] => [[]]
  | c :: rest =>
    match splitSp rest with
    | [] => [[c]]
    | w :: ws => if c = ' ' then [] :: w :: ws else (c :: w) :: ws

/-- First-occurrence deduplication with an accumulator of already-seen
elements; models iteration order of a JavaScript `Set` built from a list. -/
def dedupFirstAux [DecidableEq α] : List α → List α → List α
  | _, [] => []
  | seen, a :: l =>
    if a ∈ seen then dedupFirstAux seen l
    else a :: dedupFirstAux (a :: seen) l

/-- `Array.from(new Set(list))`: distinct elements in first-seen order. -/
def dedupFirst [DecidableEq α] (l : List α) : List α := dedupFirstAux [] l

/-- `tokenSet` from page.tsx:930-932: the distinct tokens of the normalized
string that are at least 3 characters long. -/
def tokenSetL (s : Str) : List Str :=
  dedupFirst ((splitSp (normS s)).filter (fun t => 3 ≤ t.length))

/-- Does `pat` occur at the start of `s`? -/
def startsWithL [DecidableEq α] : List α → List α → Bool
  | [], _ => true
  | _ :: _, [] => false
  | a :: p, b :: s => if a = b then startsWithL p s else false

/-- `String.prototype.includes`: does `pat` occur contiguously in `s`? -/
def containsL [DecidableEq α] (pat : List α) : List α → Bool
  | [] => pat.isEmpty
  | b :: rest => startsWithL pat (b :: rest) || containsL pat rest

/-- A dataset record (`Row` in page.tsx:11-20).  `zonalValue` is `none` when
the source value is not a finite number (an unparseable zonal value is stored
as `NaN` by `parseMoney`). -/
structure Row where
  region : Str
  province : Str
  municipality : Str
  barangay : Str
  street : Str
  vicinity : Str
  classification : Str
  zonalValue : Option ℚ
deriving DecidableEq

/-- The per-field scorer inside `scoreRow` (page.tsx:939-952): exact
normalized equality adds `120*weight`, substring containment adds
`55*weight`, and each shared token of length at least 3 adds `6*weight`. -/
def fieldScore (q : Str) (qTokens : List Str) (label : Str) (weight : Int) : Int :=
  let f := normS label
  if f = [] then 0
  else
    let s1 : Int := if f = q then 120 * weight else 0
    let s2 : Int := if containsL q f then 55 * weight else 0
    let fTokens := tokenSetL f
    let intersect : Int := ((qTokens.filter (fun t => t ∈ fTokens)).length : Int)
    s1 + s2 + intersect * 6 * weight

/-- `scoreRow` from page.tsx:934-964: weighted field scoring over
vicinity/street/barangay/municipality/province/classification with weights
6/4/3/2/2/1, an early `0` for queries that normalize to the empty string,
and a `-250` penalty for a non-finite zonal value. -/
def scoreRow (row : Row) (queryText : Str) : Int :=
  let q := normS queryText
  if q = [] then 0
  else
    let qTokens := tokenSetL q
    let s :=
      fieldScore q qTokens row.vicinity 6 +
      fieldScore q qTokens row.street 4 +
      fieldScore q qTokens row.barangay 3 +
      fieldScore q qTokens row.municipality 2 +
      fieldScore q qTokens row.province 2 +
      fieldScore q qTokens row.classification 1
    if row.zonalValue = none then s - 250 else s

/-- Insertion step of a stable sort: place `x` before the first element it
may precede, after every earlier element that ties with it. -/
def stableInsert (le : α → α → Bool) (x : α) : List α → List α
  | [] => [x]
  | y :: l => if le x y then x :: y :: l else y :: stableInsert le x l

/-- Stable sort (insertion sort), modelling the stability guaranteed for
`Array.prototype.sort`: elements the comparator ties keep their original
relative order. -/
def stableSort (le : α → α → Bool) (l : List α) : List α :=
  l.foldr (stableInsert le) []

/-- The scored-and-ranked list built by `updateMatching`
(page.tsx:1363-1377): score every row, sort by score descending with the
stable `Array.prototype.sort` under the comparator
`(a, b) => b.score - a.score`, keep the top 6. -/
def rankRows (rows : List Row) (queryText : Str) : List (Row × Int) :=
  (stableSort (fun a b => decide (b.2 ≤ a.2))
      (rows.map (fun r => (r, scoreRow r queryText)))).take 6

/-- The `scoreRow` value actually used by the matching pipeline when a
caller holds location hints.  `updateMatching` (page.tsx:1363-1377) invokes
`scoreRow(r, queryText)` with no hint argument and `scoreRow`
(page.tsx:934) accepts none, so any hints held by the caller never reach
the scoring computation; the hint argument is ignored. -/
def scoreRowHinted (hints : Option (Str × Str)) (row : Row) (queryText : Str) : Int :=
  match hints with
  | _ => scoreRow row queryText

/-- The confidence derivation (page.tsx:1321-1327): a falsy (zero) top score
yields the em-dash placeholder, then `>700` yields High, `>350` Medium,
and anything else Low. -/
def confidenceLabel (topMatches : List (Row × Int)) : Str :=
  let top : Int := ((topMatches.head?).map Prod.snd).getD 0
  if top = 0 then "—".data
  else if 700 < top then "High".data
  else if 350 < top then "Medium".data
  else "Low".data

/-- Adjacent characters are not both whitespace. -/
def NoWsPair (a b : Char) : Prop := ¬(isWsChar a = true ∧ isWsChar b = true)

/-- The outcome of one `fetch` against one Overpass endpoint, in endpoint
order: an HTTP response with a status and body text, a network failure
(fetch rejected), or rejection because the caller's AbortSignal is (or
becomes) aborted during this attempt. -/
inductive NetResult where
  | resp (status : Nat) (body : Str)
  | netFailure (msg : Str)
  | aborted
deriving DecidableEq

/-- The errors thrown along the `postOverpass`/`overpassWithFallback` path:
the non-2xx error (page.tsx:349), the non-JSON error (page.tsx:354), a
rethrown network failure, the AbortError produced by an aborted fetch, and
the `new Error("Overpass failed")` fallback used when the endpoint list is
empty (page.tsx:368). -/
inductive OvError where
  | httpError (status : Nat) (snippet : Str)
  | nonJson (snippet : Str)
  | netFailure (msg : Str)
  | abortError
  | overpassFailed
deriving DecidableEq

/-- `postOverpass` (page.tsx:340-356): a rejected fetch propagates
(network failure or AbortError), a non-2xx status throws the HTTP error
with a 220-character body snippet, a body that fails to parse as JSON
throws the non-JSON error, otherwise the parsed body is returned.  The
JSON parser is a parameter (`JSON.parse` on the body text). -/
def postOverpass (parse : Str → Option α) : NetResult → Except OvError α
  | .aborted => .error .abortError
  | .netFailure m => .error (.netFailure m)
  | .resp status body =>
    if 200 ≤ status ∧ status ≤ 299 then
      match parse body with
      | some j => .ok j
      | none => .error (.nonJson (body.take 220))
    else .error (.httpError status (body.take 220))

/-- The loop of `overpassWithFallback` (page.tsx:358-369), threading the
`lastErr` variable; the second component counts how many fetch attempts
were issued. -/
def overpassGo (parse : Str → Option α) (lastErr : Option OvError) :
    List NetResult → Except OvError α × Nat
  | [] => (.error (lastErr.getD .overpassFailed), 0)
  | n :: rest =>
    match postOverpass parse n with
    | .ok j => (.ok j, 1)
    | .error e =>
      ((overpassGo parse (some e) rest).1, (overpassGo parse (some e) rest).2 + 1)

/-- `overpassWithFallback` (page.tsx:358-369): try each endpoint in order
(the list gives each endpoint's fetch outcome), return the first parsed
success, otherwise throw the last error.  Also reports the number of
attempts issued. -/
def overpassWithFallback (parse : Str → Option α) (attempts : List NetResult) :
    Except OvError α × Nat :=
  overpassGo parse none attempts

/-- An Overpass element as consumed by the report counters: its `type`
string, numeric `id`, and tag table. -/
structure OElement where
  typ : Str
  id : Int
  tags : List (Str × Str)
deriving DecidableEq

/-- `el.tags?.[k]`: first binding of key `k` in the tag table. -/
def tagGet (tags : List (Str × Str)) (k : Str) : Option Str :=
  (tags.find? (fun p => decide (p.1 = k))).map Prod.snd

/-- `dedupeElements` (page.tsx:373-383): drop exact `(type, id)` duplicates,
keeping first-seen order. -/
def dedupeElements (els : List (Str × Int)) : List (Str × Int) :=
  dedupFirst els

/-- The facility report record (`Reports`, page.tsx:36-46). -/
structure Reports where
  hospitals : Nat
  schools : Nat
  police : Nat
  fire : Nat
  pharmacy : Nat
  bank : Nat
  market : Nat
  mall : Nat
  transport : Nat
deriving DecidableEq

/-- The three Overpass queries issued by `fetchReports`
(page.tsx:392-412), identified by their kind and interpolated
radius/latitude/longitude. -/
inductive QueryKind where
  | amenitySet
  | mallShop
  | transportUnion
deriving DecidableEq

/-- A spatial query as sent to `overpassWithFallback` by `fetchReports`. -/
structure OvQuery where
  kind : QueryKind
  radius : ℚ
  lat : ℚ
  lng : ℚ
deriving DecidableEq

/-- `Number.prototype.toFixed(5)` as used in the report cache key,
represented by the integer value of the rounded 5-decimal string (round
half away from zero). -/
def toFixed5 (x : ℚ) : Int :=
  if 0 ≤ x then ⌊x * 100000 + 1 / 2⌋ else -⌊-x * 100000 + 1 / 2⌋

/-- The report cache key from page.tsx:388:
lat.toFixed(5), lng.toFixed(5) and the exact radius. -/
def reportKey (lat lng radius : ℚ) : Int × Int × ℚ :=
  (toFixed5 lat, toFixed5 lng, radius)

/-- One bucket of the amenity counting loop (page.tsx:420-433): the number
of elements whose `amenity` tag equals `v`. -/
def countAmenity (els : List OElement) (v : Str) : Nat :=
  (els.filter (fun e => decide (tagGet e.tags ("amenity".data) = some v))).length

/-- `fetchReports` (page.tsx:387-452): serve a cache hit without issuing
queries; otherwise issue the three queries (amenity set, shop=mall,
transport union) against the environment `env`, count amenities into fixed
buckets, count mall elements directly, deduplicate transport elements by
`(type, id)`, cache and return.  The result carries the report, the updated
cache, and the number of Overpass queries issued. -/
def fetchReports (env : OvQuery → List OElement)
    (cache : List ((Int × Int × ℚ) × Reports)) (lat lng radius : ℚ) :
    Reports × List ((Int × Int × ℚ) × Reports) × Nat :=
  let key := reportKey lat lng radius
  match cache.find? (fun p => decide (p.1 = key)) with
  | some p => (p.2, cache, 0)
  | none =>
    let amenityEls := env ⟨.amenitySet, radius, lat, lng⟩
    let mallEls := env ⟨.mallShop, radius, lat, lng⟩
    let transportEls := env ⟨.transportUnion, radius, lat, lng⟩
    let final : Reports :=
      ⟨countAmenity amenityEls ("hospital".data),
        countAmenity amenityEls ("school".data),
        countAmenity amenityEls ("police".data),
        countAmenity amenityEls ("fire_station".data),
        countAmenity amenityEls ("pharmacy".data),
        countAmenity amenityEls ("bank".data),
        countAmenity amenityEls ("marketplace".data),
        mallEls.length,
        (dedupeElements (transportEls.map (fun e => (e.typ, e.id)))).length⟩
    (final, (key, final) :: cache, 3)

/-- The apostrophe character. -/
def apos : Char := Char.ofNat 39

/-- The right single quotation mark replaced by `[’']` regexes. -/
def rsquo : Char := Char.ofNat 8217

/-- `.replace(/[’']/g, "'")`: curly apostrophes become straight ones (a
straight apostrophe is replaced by itself). -/
def replaceApos (s : Str) : Str :=
  s.map (fun c => if c = rsquo then apos else c)

/-- Case-insensitive character equality, as under the regex `i` flag. -/
def ciCharEq (a b : Char) : Bool := lowerChar a = lowerChar b

/-- Does `pat` occur case-insensitively at the start of `s`? -/
def ciStarts : Str → Str → Bool
  | [], _ => true
  | _ :: _, [] => false
  | a :: p, b :: s => ciCharEq a b && ciStarts p s

/-- Does `pat` occur case-insensitively anywhere in `s`? -/
def ciContains (pat : Str) : Str → Bool
  | [] => pat.isEmpty
  | b :: rest => ciStarts pat (b :: rest) || ciContains pat rest

/-- Length of the run of whitespace characters at the start of `s`. -/
def wsRunLen : Str → Nat
  | [] => 0
  | c :: rest => if isWsChar c then wsRunLen rest + 1 else 0

/-- Index of the first `)` in `s`, failing on a line terminator first (the
lazy `.*?` inside `\(.*?\)` cannot cross one). -/
def idxOfClose : Str → Option Nat
  | [] => none
  | c :: rest =>
    if c = ')' then some 0
    else if c = '\n' ∨ c = '\r' then none
    else (idxOfClose rest).map (· + 1)

/-- Match `\s*\(.*?\)\s*` anchored at the start of `s`, returning the
remainder after the match.  The greedy `\s*` before `(` can only usefully
take the whole whitespace run, since `(` is not whitespace. -/
def matchParenAt (s : Str) : Option Str :=
  let k := wsRunLen s
  match s.drop k with
  | '(' :: afterOpen =>
    match idxOfClose afterOpen with
    | some i =>
      let afterClose := afterOpen.drop (i + 1)
      some (afterClose.drop (wsRunLen afterClose))
    | none => none
  | _ => none

/-- Left-to-right global replacement of `\s*\(.*?\)\s*` by a single space
(the third stage of `cleanRoadName`, page.tsx:464); the fuel is the string
length, sufficient because every step consumes at least one character. -/
def stripParensGo : Nat → Str → Str
  | _, [] => []
  | 0, s => s
  | fuel + 1, c :: cs =>
    match matchParenAt (c :: cs) with
    | some rest => ' ' :: stripParensGo fuel rest
    | none => c :: stripParensGo fuel cs

/-- `.replace(/\s*\(.*?\)\s*/g, " ")`. -/
def stripParens (s : Str) : Str := stripParensGo s.length s

/-- `cleanRoadName` (page.tsx:460-467): normalize apostrophes, collapse
whitespace, drop parenthesised groups (with surrounding whitespace, each
replaced by one space), collapse whitespace again, trim. -/
def cleanRoadName (s : Str) : Str :=
  trimWs (collapseWs (stripParens (collapseWs (replaceApos s))))

/-- `String.prototype.split` on a multi-character separator, splitting at
each non-overlapping leftmost occurrence; fuel is the string length. -/
def splitSubGo (sep : Str) : Nat → Str → List Str
  | 0, s => [s]
  | fuel + 1, s =>
    match s with
    | [] => [[]]
    | c :: cs =>
      if startsWithL sep s then
        [] :: splitSubGo sep fuel (s.drop sep.length)
      else
        match splitSubGo sep fuel cs with
        | [] => [[c]]
        | w :: ws => (c :: w) :: ws

/-- `s.split(sep)` for a nonempty string separator. -/
def splitOnSub (sep s : Str) : List Str := splitSubGo sep s.length s

/-- The terminator group `(?:\s+to|\s+-|,|$)` of the road-candidate
junction regex (page.tsx:476), tried in alternation order at the start of
`rest`; returns how many characters it consumes.  The greedy `\s+` inside
the first two alternatives can only take the whole whitespace run, since
`t` and `-` are not whitespace. -/
def junctionTermMatch (rest : Str) : Option Nat :=
  let m := wsRunLen rest
  if 1 ≤ m ∧ ciStarts ("to".data) (rest.drop m) then some (m + 2)
  else if 1 ≤ m ∧ (rest.drop m).head? = some '-' then some (m + 1)
  else if rest.head? = some ',' then some 1
  else if rest = ([] : Str) then some 0
  else none

/-- The lazy capture `([^,]+?)` of the road-candidate junction regex:
grow the capture one non-comma character at a time, checking the
terminator after each character; on success return the capture and the
remainder after the terminator. -/
def junctionCapLoop (acc : Str) : Str → Option (Str × Str)
  | [] => none
  | c :: rest =>
    if c = ',' then none
    else
      match junctionTermMatch rest with
      | some consumed => some (acc ++ [c], rest.drop consumed)
      | none => junctionCapLoop (acc ++ [c]) rest

/-- Backtracking over the greedy `\s+` after `junction`: try the full
whitespace run first, then shorter nonempty prefixes. -/
def junctionWsLoop (s1 : Str) : Nat → Option (Str × Str)
  | 0 => none
  | j + 1 =>
    match junctionCapLoop [] (s1.drop (j + 1)) with
    | some r => some r
    | none => junctionWsLoop s1 j

/-- Anchored attempt of `/junction\s+([^,]+?)(?:\s+to|\s+-|,|$)/i` at the
start of `s`. -/
def junctionCapAt (s : Str) : Option (Str × Str) :=
  if ciStarts ("junction".data) s then
    junctionWsLoop (s.drop 8) (wsRunLen (s.drop 8))
  else none

/-- `matchAll` scan for the road-candidate junction regex: attempt an
anchored match at each position left to right, resuming after the end of
each match; fuel is the string length. -/
def junctionMatchesGo : Nat → Str → List Str
  | 0, _ => []
  | _, [] => []
  | fuel + 1, c :: cs =>
    match junctionCapAt (c :: cs) with
    | some (cap, rest) => cap :: junctionMatchesGo fuel rest
    | none => junctionMatchesGo fuel cs

/-- All captures of `[...v.matchAll(/junction\s+([^,]+?)(?:\s+to|\s+-|,|$)/gi)]`
(page.tsx:476). -/
def junctionMatches (s : Str) : List Str := junctionMatchesGo s.length s

/-- `extractRoadCandidates` (page.tsx:469-483): normalize apostrophes, take
the first segment before " - " when nonempty, add every nonempty trimmed
junction-regex capture, clean each, keep those of length at least 4,
deduplicate by exact string keeping first-seen order, and take at most 3. -/
def extractRoadCandidates (vicinity : Str) : List Str :=
  let v := replaceApos vicinity
  let first := (splitOnSub (" - ".data) v).headD []
  let roads :=
    (if first = ([] : Str) then [] else [first]) ++
      (junctionMatches v).filterMap
        (fun m => let c := trimWs m; if c = ([] : Str) then none else some c)
  (dedupFirst ((roads.map cleanRoadName).filter (fun x => 4 ≤ x.length))).take 3

/-- A parsed junction clip (`JunctionClip`, page.tsx:485). -/
structure JunctionClip where
  main : Str
  a : Str
  b : Str
deriving DecidableEq

/-- Is every character outside the line terminators `.` cannot match? -/
def allNoNl (s : Str) : Bool :=
  s.all (fun c => !(c = '\n' ∨ c = '\r'))

/-- Backtracking for a trailing `\s+(.+)$`: try the longest whitespace
prefix first; the capture is the nonempty, line-terminator-free remainder. -/
def tailCapLoop (r : Str) : Nat → Option Str
  | 0 => none
  | j + 1 =>
    let cap := r.drop (j + 1)
    if cap ≠ ([] : Str) ∧ allNoNl cap then some cap else tailCapLoop r j

/-- Match `\s+(.+)$` at the start of `r`, returning the capture. -/
def tailCapture (r : Str) : Option Str := tailCapLoop r (wsRunLen r)

/-- The continuation `\s+to\s+junction\s+(.+)$` of the first
`parseJunctionClip` regex (page.tsx:503), anchored at the start of `rest`. -/
def m1TermMatch (rest : Str) : Option Str :=
  let m := wsRunLen rest
  if m = 0 then none
  else if ciStarts ("to".data) (rest.drop m) then
    let r2 := rest.drop (m + 2)
    let m2 := wsRunLen r2
    if m2 = 0 then none
    else if ciStarts ("junction".data) (r2.drop m2) then
      tailCapture (r2.drop (m2 + 8))
    else none
  else none

/-- The continuation `\s+to\s+(.+)$` of the second `parseJunctionClip`
regex (page.tsx:504), anchored at the start of `rest`. -/
def m2TermMatch (rest : Str) : Option Str :=
  let m := wsRunLen rest
  if m = 0 then none
  else if ciStarts ("to".data) (rest.drop m) then
    tailCapture (rest.drop (m + 2))
  else none

/-- The lazy capture `(.+?)` before a continuation `term`: grow one
non-line-terminator character at a time, checking the continuation after
each character. -/
def lazyCapLoop (term : Str → Option Str) (acc : Str) : Str → Option (Str × Str)
  | [] => none
  | c :: rest =>
    if c = '\n' ∨ c = '\r' then none
    else
      match term rest with
      | some cap2 => some (acc ++ [c], cap2)
      | none => lazyCapLoop term (acc ++ [c]) rest

/-- Backtracking over the greedy `\s+` after `junction` for the
`parseJunctionClip` regexes. -/
def wsBacktrackLoop (term : Str → Option Str) (s1 : Str) : Nat → Option (Str × Str)
  | 0 => none
  | j + 1 =>
    match lazyCapLoop term [] (s1.drop (j + 1)) with
    | some r => some r
    | none => wsBacktrackLoop term s1 j

/-- Anchored attempt of `junction\s+(.+?)` followed by continuation `term`
at the start of `s`. -/
def junctionPatAt (term : Str → Option Str) (s : Str) : Option (Str × Str) :=
  if ciStarts ("junction".data) s then
    wsBacktrackLoop term (s.drop 8) (wsRunLen (s.drop 8))
  else none

/-- `String.prototype.match` search: the anchored attempt at each position
left to right, first success wins; fuel is the string length. -/
def junctionPatSearch (term : Str → Option Str) : Nat → Str → Option (Str × Str)
  | 0, _ => none
  | _, [] => none
  | fuel + 1, c :: cs =>
    match junctionPatAt term (c :: cs) with
    | some r => some r
    | none => junctionPatSearch term fuel cs

/-- `restRaw.match(/junction\s+(.+?)\s+to\s+junction\s+(.+)$/i)`
(page.tsx:503), returning the two captures. -/
def matchM1 (s : Str) : Option (Str × Str) := junctionPatSearch m1TermMatch s.length s

/-- `restRaw.match(/junction\s+(.+?)\s+to\s+(.+)$/i)` (page.tsx:504),
returning the two captures. -/
def matchM2 (s : Str) : Option (Str × Str) := junctionPatSearch m2TermMatch s.length s

/-- The non-road lexicon test `/property|cuesta'?s property|lot|house|compound/i`
(page.tsx:518). -/
def badRoadName (s : Str) : Bool :=
  ciContains ("property".data) s ||
  ciContains (("cuesta".data) ++ apos :: ("s property".data)) s ||
  ciContains ("cuestas property".data) s ||
  ciContains ("lot".data) s ||
  ciContains ("house".data) s ||
  ciContains ("compound".data) s

/-- `parseJunctionClip` (page.tsx:494-522): clean the vicinity, require a
" - " separator, split into main and rest (both trimmed), require a main
road name of length at least 4, match `junction A to junction B` first and
`junction A to B` second, clean both bounds, and reject empty or
non-road-lexicon bounds. -/
def parseJunctionClip (vicinity : Str) : Option JunctionClip :=
  let v := cleanRoadName vicinity
  if containsL (" - ".data) v then
    let parts := (splitOnSub (" - ".data) v).map trimWs
    let mainRaw := parts.headD []
    let restRaw := (parts.drop 1).headD []
    let main := cleanRoadName mainRaw
    if main = ([] : Str) ∨ main.length < 4 then none
    else
      match (match matchM1 restRaw with
             | some r => some r
             | none => matchM2 restRaw) with
      | none => none
      | some (c1, c2) =>
        let a := cleanRoadName c1
        let b := cleanRoadName c2
        if a = ([] : Str) ∨ b = ([] : Str) ∨ badRoadName a = true ∨ badRoadName b = true then
          none
        else some ⟨main, a, b⟩
  else none

/-- An exact fraction with (by construction) positive denominator.  The
geometry code manipulates real numbers; the embedding uses exact fraction
arithmetic without normalization — every operation below computes the
exact rational value of the corresponding JavaScript expression, and only
values (never representations) are compared. -/
structure Frac where
  num : Int
  den : Int
deriving DecidableEq

/-- Exact fraction addition.  (The fraction operations invoke the `Int`
primitives directly so that concrete evaluation reduces quickly.) -/
def fadd (a b : Frac) : Frac :=
  ⟨Int.add (Int.mul a.num b.den) (Int.mul b.num a.den), Int.mul a.den b.den⟩

/-- Exact fraction subtraction. -/
def fsub (a b : Frac) : Frac :=
  ⟨Int.sub (Int.mul a.num b.den) (Int.mul b.num a.den), Int.mul a.den b.den⟩

/-- Exact fraction multiplication. -/
def fmul (a b : Frac) : Frac :=
  ⟨Int.mul a.num b.num, Int.mul a.den b.den⟩

/-- Exact fraction division, keeping the denominator positive. -/
def fdiv (a b : Frac) : Frac :=
  if b.num < 0 then ⟨Int.neg (Int.mul a.num b.den), Int.neg (Int.mul a.den b.num)⟩
  else ⟨Int.mul a.num b.den, Int.mul a.den b.num⟩

/-- Exact strict comparison of fractions with positive denominators. -/
def fltB (a b : Frac) : Bool :=
  decide (Int.mul a.num b.den < Int.mul b.num a.den)

/-- Is the fraction zero? -/
def fzeroB (a : Frac) : Bool := a.num == 0

/-- The fraction 0. -/
def f0 : Frac := ⟨0, 1⟩

/-- The fraction 1. -/
def f1 : Frac := ⟨1, 1⟩

/-- The latitude scale factor 111320 of `simplifyRDP` (page.tsx:651). -/
def f111320 : Frac := ⟨111320, 1⟩

/-- A coordinate pair `[lat, lon]` (`LatLngTuple`), as exact fractions. -/
abbrev Pt := Frac × Frac

/-- The local planar projection inside `simplifyRDP` (page.tsx:654):
`x = lon * lonFactor`, `y = lat * 111320`.  The source computes
`lonFactor = 111320 * cos(meanLat * π / 180)`, a transcendental of the
input's mean latitude; the embedding takes the factor as a parameter, and
every structural theorem below holds for every value of it.  The concrete
evaluations use point lists whose mean latitude is exactly 0, where the
source factor is exactly `111320 * cos 0 = 111320`. -/
def toXY (lonFactor : Frac) (p : Pt) : Frac × Frac :=
  (fmul p.2 lonFactor, fmul p.1 f111320)

/-- The squared perpendicular (segment) distance of `perpendicularDistance`
(page.tsx:656-677).  The source returns `Math.sqrt` of this value and only
ever compares distances with each other and with the epsilon; since the
square root is strictly monotone on nonnegative reals, comparing squares is
equivalent.  `Math.max(0, Math.min(1, t))` is the clamp written as two
tests. -/
def perpDistSq (lonFactor : Frac) (p a b : Pt) : Frac :=
  let P := toXY lonFactor p
  let A := toXY lonFactor a
  let B := toXY lonFactor b
  let dx := fsub B.1 A.1
  let dy := fsub B.2 A.2
  if fzeroB dx ∧ fzeroB dy then
    fadd (fmul (fsub P.1 A.1) (fsub P.1 A.1)) (fmul (fsub P.2 A.2) (fsub P.2 A.2))
  else
    let t := fdiv (fadd (fmul (fsub P.1 A.1) dx) (fmul (fsub P.2 A.2) dy))
      (fadd (fmul dx dx) (fmul dy dy))
    let tt := if fltB t f0 then f0 else if fltB f1 t then f1 else t
    let projX := fadd A.1 (fmul tt dx)
    let projY := fadd A.2 (fmul tt dy)
    fadd (fmul (fsub P.1 projX) (fsub P.1 projX)) (fmul (fsub P.2 projY) (fsub P.2 projY))

/-- The max-distance scan of the `rdp` helper (page.tsx:683-692): walk the
interior points carrying the running maximum (squared) distance and the
index of its first strict attainment (`-1` becomes `none`). -/
def rdpScan (dist : Pt → Frac) : List Pt → Nat → Frac → Option Nat → Frac × Option Nat
  | [], _, m, idx => (m, idx)
  | p :: rest, i, m, idx =>
    if fltB m (dist p) then rdpScan dist rest (i + 1) (dist p) (some i)
    else rdpScan dist rest (i + 1) m idx

/-- The recursive `rdp` helper (page.tsx:679-701), with a fuel argument for
structural recursion.  Each recursive call is on a strictly shorter list
(`take (i+1)` has length `i+1 ≤ len-1` and `drop i` has length
`len-i ≤ len-1`, since the scan only returns interior indices
`1 ≤ i ≤ len-2`), so fuel equal to the list length never runs out; on
exhausted fuel the function falls back to the `[first, last]` base case,
which keeps every theorem below true unconditionally.  The comparison
`distMax > eps` between square roots is embedded on the squares as
`eps < 0 ∨ distMaxSq > eps²`, equivalent for every sign of `eps` because
`distMax` is the square root of a nonnegative value. -/
def rdpGo (lonFactor eps : Frac) : Nat → List Pt → List Pt
  | _, [] => []
  | _, [p] => [p]
  | 0, p :: q :: rest => [p, (q :: rest).getLastD q]
  | fuel + 1, p :: q :: rest =>
    let lastP := (q :: rest).getLastD q
    let dist := fun x => perpDistSq lonFactor x p lastP
    match rdpScan dist ((p :: q :: rest).drop 1).dropLast 1 f0 none with
    | (_, none) => [p, lastP]
    | (dmax, some i) =>
      if fltB eps f0 || fltB (fmul eps eps) dmax then
        (rdpGo lonFactor eps fuel ((p :: q :: rest).take (i + 1))).dropLast ++
          rdpGo lonFactor eps fuel ((p :: q :: rest).drop i)
      else [p, lastP]

/-- `simplifyRDP` (page.tsx:647-704): lists of at most two points are
returned unchanged, otherwise the recursive reduction runs. -/
def simplifyRDP (lonFactor : Frac) (points : List Pt) (epsilonMeters : Frac) : List Pt :=
  if points.length ≤ 2 then points
  else rdpGo lonFactor epsilonMeters points.length points

/-- The stride subsampling applied after simplification when the result
exceeds 500 points (page.tsx:836-839 and 798-801):
`step = ceil(len/500)`, keep the indices divisible by `step`. -/
def capTo500 (line : List α) : List α :=
  if 500 < line.length then
    (line.enum.filter (fun q => q.1 % ((line.length + 499) / 500) = 0)).map Prod.snd
  else line

/-- The full simplification step of the geometry fetchers
(page.tsx:835-840): `simplifyRDP` followed by the 500-point cap. -/
def simplifyAndCap (lonFactor : Frac) (points : List Pt) (eps : Frac) : List Pt :=
  capTo500 (simplifyRDP lonFactor points eps)

/-- Points on a vertically centered parabola: latitude
`(n·i² - s)/(n·111320)` and longitude `i/111320`, so the planar projection
is `x = i`, `y = (n·i² - s)/n`.  With `s` the sum of the squares
`0² + … + (n-1)²`, the mean latitude is exactly 0, making the source's
`lonFactor` exactly 111320.  The points are strictly convex, so no three
are collinear and the recursive reduction keeps all of them. -/
def paraPt (n s : Int) (i : Nat) : Pt :=
  (⟨n * i * i - s, n * 111320⟩, ⟨(i : Int), 111320⟩)

/-- A contiguous window of `m` parabola points starting at index `a`. -/
def paraSeg (n s : Int) (a m : Nat) : List Pt :=
  (List.range m).map (fun (k : Nat) => paraPt n s (a + k))

/-- The full parabola list of `count` points. -/
def parabola (count : Nat) (s : Int) : List Pt :=
  (List.range count).map (fun (i : Nat) => paraPt (count : Int) s i)

/-- The fraction -1, an epsilon below every point-to-chord distance. -/
def fneg1 : Frac := ⟨-1, 1⟩

/-- The rational value of a fraction (analysis tool, not part of the
embedding). -/
def fval (a : Frac) : ℚ := (a.num : ℚ) / (a.den : ℚ)

/-- A fraction in the positive-denominator normal form maintained by the
fraction operations. -/
def FPos (a : Frac) : Prop := 0 < a.den


/-! ### Theorems -/

/-! Helper lemmas about the text pipeline. -/


theorem lowerChar_idem (c : Char) : lowerChar (lowerChar c) = lowerChar c := by
  by_cases h : 65 ≤ c.toNat ∧ c.toNat ≤ 90
  · obtain ⟨h1, h2⟩ := h
    have hc : c = Char.ofNat c.toNat := (Char.ofNat_toNat c).symm
    rw [hc]
    set n := c.toNat with hn
    interval_cases n <;> decide
  · have hc : lowerChar c = c := by rw [lowerChar, if_neg h]
    rw [hc, hc]

theorem mem_replaceBad {c : Char} {u : Str} (h : c ∈ replaceBad u) :
    c = ' ' ∨ (keepChar c = true ∧ c ∈ u) := by
  rw [replaceBad] at h
  obtain ⟨a, ha, rfl⟩ := List.mem_map.mp h
  by_cases hk : keepChar a
  · exact Or.inr ⟨by simp [hk], by simpa [hk] using ha⟩
  · simp [hk]

theorem mem_collapseWsAux {c : Char} :
    ∀ (u : Str) (b : Bool), c ∈ collapseWsAux b u →
      c = ' ' ∨ (c ∈ u ∧ isWsChar c = false) := by
  intro u
  induction u with
  | nil => intro b h; simp [collapseWsAux] at h
  | cons a rest ih =>
    intro b h
    by_cases hw : isWsChar a
    · rcases b with _ | _
      · rw [collapseWsAux, if_pos hw] at h
        simp only [Bool.false_eq_true, if_false] at h
        rcases List.mem_cons.mp h with rfl | h2
        · exact Or.inl rfl
        · rcases ih true h2 with h3 | ⟨h3, h4⟩
          · exact Or.inl h3
          · exact Or.inr ⟨List.mem_cons_of_mem _ h3, h4⟩
      · rw [collapseWsAux, if_pos hw] at h
        simp only [if_true] at h
        rcases ih true h with h3 | ⟨h3, h4⟩
        · exact Or.inl h3
        · exact Or.inr ⟨List.mem_cons_of_mem _ h3, h4⟩
    · rw [collapseWsAux, if_neg hw] at h
      rcases List.mem_cons.mp h with rfl | h2
      · exact Or.inr ⟨List.mem_cons_self _ _, by simpa using hw⟩
      · rcases ih false h2 with h3 | ⟨h3, h4⟩
        · exact Or.inl h3
        · exact Or.inr ⟨List.mem_cons_of_mem _ h3, h4⟩

theorem head?_collapseWsAux_true :
    ∀ (u : Str) (c : Char), (collapseWsAux true u).head? = some c →
      isWsChar c = false := by
  intro u
  induction u with
  | nil => intro c h; simp [collapseWsAux] at h
  | cons a rest ih =>
    intro c h
    by_cases hw : isWsChar a
    · rw [collapseWsAux, if_pos hw] at h
      simp only [if_true] at h
      exact ih c h
    · rw [collapseWsAux, if_neg hw] at h
      simp only [List.head?_cons, Option.some.injEq] at h
      subst h
      simpa using hw

theorem chain'_collapseWsAux :
    ∀ (u : Str) (b : Bool), List.Chain' NoWsPair (collapseWsAux b u) := by
  intro u
  induction u with
  | nil => intro b; simp [collapseWsAux]
  | cons a rest ih =>
    intro b
    by_cases hw : isWsChar a
    · rcases b with _ | _
      · rw [collapseWsAux, if_pos hw]
        simp only [Bool.false_eq_true, if_false]
        refine List.chain'_cons'.mpr ⟨?_, ih true⟩
        intro c hc
        have := head?_collapseWsAux_true rest c hc
        exact fun hpair => by simp [this] at hpair
      · rw [collapseWsAux, if_pos hw]
        simp only [if_true]
        exact ih true
    · rw [collapseWsAux, if_neg hw]
      refine List.chain'_cons'.mpr ⟨?_, ih false⟩
      intro c _
      exact fun hpair => by simp_all

theorem head?_dropWhile_not (p : α → Bool) :
    ∀ (l : List α) (c : α), (l.dropWhile p).head? = some c → p c = false := by
  intro l
  induction l with
  | nil => intro c h; simp at h
  | cons a rest ih =>
    intro c h
    rw [List.dropWhile_cons] at h
    by_cases hp : p a
    · simp only [hp, if_true] at h
      exact ih c h
    · simp only [hp, Bool.false_eq_true, if_false, List.head?_cons,
        Option.some.injEq] at h
      subst h
      simpa using hp

theorem dropWhile_eq_self_of_head (p : α → Bool) (l : List α)
    (h : ∀ c, l.head? = some c → p c = false) : l.dropWhile p = l := by
  cases l with
  | nil => rfl
  | cons a rest =>
    have hpa := h a rfl
    rw [List.dropWhile_cons, if_neg (by simp [hpa])]

theorem getLast?_of_suffix {l₁ l₂ : List α} (h : l₁ <:+ l₂) (hne : l₁ ≠ []) :
    l₂.getLast? = l₁.getLast? := by
  obtain ⟨pre, rfl⟩ := h
  exact List.getLast?_append_of_ne_nil pre hne

theorem mem_trimWs {c : Char} {u : Str} (h : c ∈ trimWs u) : c ∈ u := by
  rw [trimWs] at h
  rw [List.mem_reverse] at h
  have h2 := (List.dropWhile_suffix isWsChar).subset h
  rw [List.mem_reverse] at h2
  exact (List.dropWhile_suffix isWsChar).subset h2

theorem chain'_trimWs {u : Str} (h : List.Chain' NoWsPair u) :
    List.Chain' NoWsPair (trimWs u) := by
  have symm : ∀ {v : Str}, List.Chain' NoWsPair v → List.Chain' (flip NoWsPair) v := by
    intro v hv
    exact hv.imp (fun ha hb => by simp only [flip, NoWsPair] at *; tauto)
  rw [trimWs]
  apply List.chain'_reverse.mpr
  apply symm
  apply List.Chain'.suffix _ (List.dropWhile_suffix isWsChar)
  apply List.chain'_reverse.mpr
  apply symm
  exact List.Chain'.suffix h (List.dropWhile_suffix isWsChar)

theorem head?_trimWs {u : Str} {c : Char} (h : (trimWs u).head? = some c) :
    isWsChar c = false := by
  rw [trimWs] at h
  set w := (u.dropWhile isWsChar).reverse.dropWhile isWsChar with hw
  have hne : w ≠ [] := by
    intro hnil
    rw [hnil] at h
    simp at h
  rw [List.head?_reverse] at h
  have hsuffix : w <:+ (u.dropWhile isWsChar).reverse := List.dropWhile_suffix isWsChar
  have hlast : (u.dropWhile isWsChar).reverse.getLast? = w.getLast? :=
    getLast?_of_suffix hsuffix hne
  rw [← hlast] at h
  rw [List.getLast?_reverse] at h
  exact head?_dropWhile_not isWsChar _ c h

theorem getLast?_trimWs {u : Str} {c : Char} (h : (trimWs u).getLast? = some c) :
    isWsChar c = false := by
  rw [trimWs, List.getLast?_reverse] at h
  exact head?_dropWhile_not isWsChar _ c h

theorem collapseWsAux_fix :
    ∀ (u : Str) (b : Bool),
      List.Chain' NoWsPair u →
      (∀ c ∈ u, isWsChar c = true → c = ' ') →
      (b = true → ∀ c, u.head? = some c → isWsChar c = false) →
      collapseWsAux b u = u := by
  intro u
  induction u with
  | nil => intro b _ _ _; cases b <;> rfl
  | cons a rest ih =>
    intro b hch hsp hb
    obtain ⟨hpair, hchrest⟩ := List.chain'_cons'.mp hch
    by_cases hw : isWsChar a
    · rcases b with _ | _
      · rw [collapseWsAux, if_pos hw]
        simp only [Bool.false_eq_true, if_false]
        have ha : a = ' ' := hsp a (List.mem_cons_self _ _) (by simpa using hw)
        have hrest : collapseWsAux true rest = rest := by
          apply ih true hchrest
          · intro c hc hwc; exact hsp c (List.mem_cons_of_mem _ hc) hwc
          · intro _ c hc
            have := hpair c hc
            rw [NoWsPair] at this
            by_cases h2 : isWsChar c
            · exact absurd ⟨by simpa using hw, by simpa using h2⟩ this
            · simpa using h2
        rw [ha, hrest]
      · exact absurd (hb rfl a rfl) (by simpa using hw)
    · rw [collapseWsAux, if_neg hw]
      have hrest : collapseWsAux false rest = rest := by
        apply ih false hchrest
        · intro c hc hwc; exact hsp c (List.mem_cons_of_mem _ hc) hwc
        · intro h2; simp at h2
      rw [hrest]

theorem trimWs_fix (u : Str)
    (h1 : ∀ c, u.head? = some c → isWsChar c = false)
    (h2 : ∀ c, u.getLast? = some c → isWsChar c = false) :
    trimWs u = u := by
  rw [trimWs]
  rw [dropWhile_eq_self_of_head isWsChar u h1]
  rw [dropWhile_eq_self_of_head isWsChar u.reverse
    (by intro c hc; rw [List.head?_reverse] at hc; exact h2 c hc)]
  exact List.reverse_reverse u

theorem mem_normS {c : Char} {s : Str} (h : c ∈ normS s) :
    keepChar c = true ∧ lowerChar c = c := by
  have h1 : c ∈ collapseWs (replaceBad (s.map lowerChar)) := mem_trimWs h
  rcases mem_collapseWsAux _ false h1 with rfl | ⟨h2, _⟩
  · exact ⟨by decide, by decide⟩
  · rcases mem_replaceBad h2 with rfl | ⟨hk, h3⟩
    · exact ⟨by decide, by decide⟩
    · obtain ⟨c0, _, rfl⟩ := List.mem_map.mp h3
      exact ⟨hk, lowerChar_idem c0⟩

theorem map_lowerChar_fix {u : Str} (h : ∀ c ∈ u, lowerChar c = c) :
    u.map lowerChar = u := by
  induction u with
  | nil => rfl
  | cons a rest ih =>
    simp only [List.map_cons, h a (List.mem_cons_self _ _)]
    rw [ih (fun c hc => h c (List.mem_cons_of_mem _ hc))]

theorem replaceBad_fix {u : Str} (h : ∀ c ∈ u, keepChar c = true) :
    replaceBad u = u := by
  induction u with
  | nil => rfl
  | cons a rest ih =>
    rw [replaceBad, List.map_cons, if_pos (h a (List.mem_cons_self _ _))]
    have := ih (fun c hc => h c (List.mem_cons_of_mem _ hc))
    rw [replaceBad] at this
    rw [this]

/-- C9: the normalization `norm` (lower-case, strip characters outside
letters/digits/whitespace/dot/hyphen, collapse whitespace, trim) is
idempotent: `norm(norm(s)) == norm(s)` for every string `s`. -/
theorem normS_idempotent (s : Str) : normS (normS s) = normS s := by
  have hchars : ∀ c ∈ normS s, keepChar c = true ∧ lowerChar c = c :=
    fun c hc => mem_normS hc
  have h1 : (normS s).map lowerChar = normS s :=
    map_lowerChar_fix (fun c hc => (hchars c hc).2)
  have h2 : replaceBad (normS s) = normS s :=
    replaceBad_fix (fun c hc => (hchars c hc).1)
  have hch : List.Chain' NoWsPair (normS s) :=
    chain'_trimWs (chain'_collapseWsAux _ false)
  have hsp : ∀ c ∈ normS s, isWsChar c = true → c = ' ' := by
    intro c hc hwc
    have h3 : c ∈ collapseWs (replaceBad (s.map lowerChar)) := mem_trimWs hc
    rcases mem_collapseWsAux _ false h3 with rfl | ⟨_, hf⟩
    · rfl
    · rw [hwc] at hf; cases hf
  have h3 : collapseWs (normS s) = normS s :=
    collapseWsAux_fix _ false hch hsp (fun hfalse => by simp at hfalse)
  have h4 : trimWs (normS s) = normS s :=
    trimWs_fix _ (fun c hc => head?_trimWs hc) (fun c hc => getLast?_trimWs hc)
  show trimWs (collapseWs (replaceBad ((normS s).map lowerChar))) = normS s
  rw [h1, h2, h3, h4]

/-- C10: a query that normalizes to the empty string scores exactly 0 for
every record — the early return in `scoreRow` fires before the `-250`
unparseable-zonal-value penalty is applied. -/
theorem scoreRow_empty_query (row : Row) (q : Str) (h : normS q = []) :
    scoreRow row q = 0 := by
  rw [scoreRow, h]
  rfl

/-- Witness for C10: a record whose zonal value parsed to NaN scores 0 (not
-250) under a symbols-only query. -/
theorem scoreRow_empty_query_witness :
    normS ("%%%".data) = [] ∧
      scoreRow ⟨[], [], [], [], [], [], [], none⟩ ("%%%".data) = 0 :=
  ⟨by decide, scoreRow_empty_query ⟨[], [], [], [], [], [], [], none⟩ ("%%%".data) (by decide)⟩

/-- C3 counterexample: a reachable ranked result set whose top score is
-250 (a record with an unparseable zonal value and a non-matching query)
is labelled "Low" by the code, not the "unknown" bucket the claim
prescribes for non-positive top scores, and the code's positive-but-small
label is "Low", not "Medium/Low". -/
theorem confidence_negative_top_counterexample :
    (rankRows [⟨[], [], [], [], [], [], [], none⟩] ("qqq".data)).map Prod.snd = [-250] ∧
      confidenceLabel (rankRows [⟨[], [], [], [], [], [], [], none⟩] ("qqq".data)) = "Low".data ∧
      "Low".data ≠ "unknown".data ∧
      "Low".data ≠ ("Medium/Low").data := by
  refine ⟨by decide, by decide, by decide, by decide⟩

/-- C3 amended: the derived confidence is "High" when the top score is
greater than 700, "Medium" when it is greater than 350 (and not greater
than 700), "Low" (not "Medium/Low") for every other nonzero top score —
including zero-crossing negatives — and the em-dash placeholder (not
"unknown") exactly when the top score is 0 (or the result set is empty). -/
theorem confidence_thresholds (tm : List (Row × Int)) (top : Int)
    (htop : ((tm.head?).map Prod.snd).getD 0 = top) :
    (700 < top → confidenceLabel tm = "High".data) ∧
    (350 < top ∧ top ≤ 700 → confidenceLabel tm = "Medium".data) ∧
    (top ≠ 0 ∧ top ≤ 350 → confidenceLabel tm = "Low".data) ∧
    (top = 0 → confidenceLabel tm = "—".data) := by
  subst htop
  refine ⟨?_, ?_, ?_, ?_⟩ <;> intro h <;> rw [confidenceLabel]
  · rw [if_neg (by omega), if_pos (by omega)]
  · rw [if_neg (by omega), if_neg (by omega), if_pos (by omega)]
  · rw [if_neg (by omega), if_neg (by omega), if_neg (by omega)]
  · rw [if_pos (by omega)]

/-- Witness for the amended C3 thresholds at concrete top scores. -/
theorem confidence_thresholds_witness :
    confidenceLabel [(⟨[], [], [], [], [], [], [], none⟩, 800)] = "High".data ∧
      confidenceLabel [(⟨[], [], [], [], [], [], [], none⟩, 400)] = "Medium".data ∧
      confidenceLabel [(⟨[], [], [], [], [], [], [], none⟩, -250)] = "Low".data ∧
      confidenceLabel [] = "—".data :=
  ⟨(confidence_thresholds [(⟨[], [], [], [], [], [], [], none⟩, 800)] 800 rfl).1 (by decide),
   (confidence_thresholds [(⟨[], [], [], [], [], [], [], none⟩, 400)] 400 rfl).2.1 (by decide),
   (confidence_thresholds [(⟨[], [], [], [], [], [], [], none⟩, -250)] (-250) rfl).2.2.1 (by decide),
   (confidence_thresholds [] 0 rfl).2.2.2 rfl⟩

/-- C1 counterexample: with a municipality hint exactly equal (after
normalization) to the record's municipality, the score computed by the
matching pipeline is identical to the score without the hint — it is not
increased by 80, because `scoreRow`/`updateMatching` accept no hints. -/
theorem hint_bonus_counterexample :
    normS (("Baguio City").data) =
        normS (⟨[], ("Benguet").data, ("Baguio City").data, ("Session Road").data,
          [], ("Session Rd").data, ("CR").data, some 25000⟩ : Row).municipality ∧
      scoreRowHinted (some (("Baguio City").data, ("Benguet").data))
          ⟨[], ("Benguet").data, ("Baguio City").data, ("Session Road").data,
            [], ("Session Rd").data, ("CR").data, some 25000⟩ (("session road").data) =
        scoreRowHinted none
          ⟨[], ("Benguet").data, ("Baguio City").data, ("Session Road").data,
            [], ("Session Rd").data, ("CR").data, some 25000⟩ (("session road").data) ∧
      scoreRowHinted (some (("Baguio City").data, ("Benguet").data))
          ⟨[], ("Benguet").data, ("Baguio City").data, ("Session Road").data,
            [], ("Session Rd").data, ("CR").data, some 25000⟩ (("session road").data) ≠
        scoreRowHinted none
          ⟨[], ("Benguet").data, ("Baguio City").data, ("Session Road").data,
            [], ("Session Rd").data, ("CR").data, some 25000⟩ (("session road").data) + 80 := by
  refine ⟨by decide, rfl, by decide⟩

/-- C1 amended: the scoring path accepts no location hints — the score a
caller obtains when holding hints is the plain `scoreRow` value, unchanged
by any hint (so no flat +80 hint bonus exists in the code). -/
theorem hints_do_not_change_score (hints : Option (Str × Str)) (row : Row) (q : Str) :
    scoreRowHinted hints row q = scoreRowHinted none row q ∧
      scoreRowHinted hints row q = scoreRow row q :=
  ⟨rfl, rfl⟩

theorem overpassGo_first_success (parse : Str → Option α) (n : NetResult)
    (post : List NetResult) (v : α) (hok : postOverpass parse n = .ok v) :
    ∀ (pre : List NetResult) (lastErr : Option OvError),
      (∀ m ∈ pre, ∃ e, postOverpass parse m = .error e) →
      overpassGo parse lastErr (pre ++ n :: post) = (.ok v, pre.length + 1) := by
  intro pre
  induction pre with
  | nil =>
    intro lastErr _
    rw [List.nil_append, overpassGo, hok]
    rfl
  | cons m pre ih =>
    intro lastErr hfail
    obtain ⟨e, he⟩ := hfail m (List.mem_cons_self _ _)
    rw [List.cons_append, overpassGo, he]
    dsimp only
    rw [ih (some e) (fun x hx => hfail x (List.mem_cons_of_mem _ hx))]
    simp [List.length_cons]

theorem overpassGo_all_fail (parse : Str → Option α) (m : NetResult) (e : OvError)
    (hm : postOverpass parse m = .error e) :
    ∀ (pre : List NetResult) (lastErr : Option OvError),
      (∀ x ∈ pre, ∃ e2, postOverpass parse x = .error e2) →
      overpassGo parse lastErr (pre ++ [m]) = (.error e, pre.length + 1) := by
  intro pre
  induction pre with
  | nil =>
    intro lastErr _
    rw [List.nil_append, overpassGo, hm]
    dsimp only
    rw [overpassGo]
    rfl
  | cons x pre ih =>
    intro lastErr hfail
    obtain ⟨e2, he2⟩ := hfail x (List.mem_cons_self _ _)
    rw [List.cons_append, overpassGo, he2]
    dsimp only
    rw [ih (some e2) (fun y hy => hfail y (List.mem_cons_of_mem _ hy))]
    simp [List.length_cons]

/-- C6: the resilient fetch tries endpoints in order; if every endpoint
before position `i` fails (non-2xx status, non-JSON body, network error or
abort) and endpoint `i` succeeds, the call returns endpoint `i`'s parsed
JSON after exactly `i + 1` attempts, surfacing no error; if all endpoints
fail, the call fails with the last endpoint's error after trying the whole
list. -/
theorem overpass_fallback_contract :
    (∀ (α : Type) (parse : Str → Option α) (pre post : List NetResult)
        (n : NetResult) (v : α),
        (∀ m ∈ pre, ∃ e, postOverpass parse m = .error e) →
        postOverpass parse n = .ok v →
        overpassWithFallback parse (pre ++ n :: post) = (.ok v, pre.length + 1)) ∧
    (∀ (α : Type) (parse : Str → Option α) (pre : List NetResult)
        (m : NetResult) (e : OvError),
        (∀ x ∈ pre, ∃ e2, postOverpass parse x = .error e2) →
        postOverpass parse m = .error e →
        overpassWithFallback parse (pre ++ [m]) = (.error e, (pre ++ [m]).length)) := by
  constructor
  · intro α parse pre post n v hfail hok
    exact overpassGo_first_success parse n post v hok pre none hfail
  · intro α parse pre m e hfail hm
    rw [overpassWithFallback, overpassGo_all_fail parse m e hm pre none hfail]
    simp

/-- Witness for C6: endpoint 1 answers HTTP 503, endpoint 2 returns a body
that parses; the call returns endpoint 2's parsed result after 2 attempts.
And when endpoint 1 answers 503 and endpoint 2's fetch fails on the
network, the call fails with endpoint 2's (the last) error. -/
theorem overpass_fallback_contract_witness :
    overpassWithFallback (fun s => some s)
        [NetResult.resp 503 ("busy".data), NetResult.resp 200 ("ok".data)] =
      (Except.ok ("ok".data), 2) ∧
    overpassWithFallback (fun s => some s)
        [NetResult.resp 503 ("busy".data), NetResult.netFailure ("down".data)] =
      (Except.error (OvError.netFailure ("down".data)), 2) :=
  ⟨overpass_fallback_contract.1 Str (fun s => some s) [NetResult.resp 503 ("busy".data)]
      [] (NetResult.resp 200 ("ok".data)) ("ok".data)
      (by intro m hm
          rcases List.mem_singleton.mp hm with rfl
          exact ⟨OvError.httpError 503 (("busy".data).take 220), rfl⟩)
      rfl,
   overpass_fallback_contract.2 Str (fun s => some s) [NetResult.resp 503 ("busy".data)]
      (NetResult.netFailure ("down".data)) (OvError.netFailure ("down".data))
      (by intro x hx
          rcases List.mem_singleton.mp hx with rfl
          exact ⟨OvError.httpError 503 (("busy".data).take 220), rfl⟩)
      rfl⟩

/-- C2 counterexample: the signal fires during the very first attempt
(every fetch outcome from then on is AbortError), yet the loop does not
propagate the cancellation immediately: with two endpoints it still issues
2 attempts, not 1 — `overpassWithFallback` catches the AbortError and
treats it as an ordinary fallback condition, checking cancellation neither
before nor between attempts. -/
theorem cancellation_counterexample :
    overpassWithFallback (fun s => some s) [NetResult.aborted, NetResult.aborted] =
      (Except.error OvError.abortError, 2) ∧ (2 : Nat) ≠ 1 :=
  ⟨rfl, by decide⟩

/-- C2 amended: when the cancellation signal fires during the attempt at
position `pre.length` (so that attempt and every later fetch reject with
AbortError), the loop still tries every remaining endpoint — the total
number of attempts is the full endpoint-list length, not `pre.length + 1`
— and only after exhausting the list does the call reject, with the
AbortError as the last error, which callers can distinguish from ordinary
failures. -/
theorem cancellation_exhausts_endpoints (α : Type) (parse : Str → Option α)
    (pre post : List NetResult)
    (hpre : ∀ x ∈ pre, ∃ e, postOverpass parse x = .error e)
    (hpost : ∀ x ∈ post, x = NetResult.aborted) :
    overpassWithFallback parse (pre ++ NetResult.aborted :: post) =
      (.error .abortError, pre.length + 1 + post.length) := by
  rcases List.eq_nil_or_concat post with rfl | ⟨post2, x, rfl⟩
  · rw [overpassWithFallback, overpassGo_all_fail parse NetResult.aborted .abortError rfl pre none hpre]
    simp
  · have hx : x = NetResult.aborted := hpost x (by simp)
    subst hx
    simp only [List.concat_eq_append] at hpost ⊢
    have hlist : pre ++ NetResult.aborted :: (post2 ++ [NetResult.aborted]) =
        (pre ++ NetResult.aborted :: post2) ++ [NetResult.aborted] := by simp
    rw [overpassWithFallback, hlist,
      overpassGo_all_fail parse NetResult.aborted .abortError rfl
        (pre ++ NetResult.aborted :: post2) none ?_]
    · simp
      omega
    · intro y hy
      rcases List.mem_append.mp hy with hy2 | hy2
      · exact hpre y hy2
      · rcases List.mem_cons.mp hy2 with rfl | hy3
        · exact ⟨.abortError, rfl⟩
        · have := hpost y (by simp [hy3])
          subst this
          exact ⟨.abortError, rfl⟩

/-- Witness for the amended C2: one failing endpoint, then the signal fires;
three endpoints in total are attempted and the call rejects with AbortError. -/
theorem cancellation_exhausts_endpoints_witness :
    overpassWithFallback (fun s => some s)
        [NetResult.resp 503 ("busy".data), NetResult.aborted, NetResult.aborted] =
      (Except.error OvError.abortError, 3) := by
  have h := cancellation_exhausts_endpoints Str (fun s => some s)
    [NetResult.resp 503 ("busy".data)] [NetResult.aborted]
    (by intro x hx
        rcases List.mem_singleton.mp hx with rfl
        exact ⟨OvError.httpError 503 (("busy".data).take 220), rfl⟩)
    (by intro x hx; exact List.mem_singleton.mp hx)
  simpa using h

theorem fetchReports_find_after (env : OvQuery → List OElement)
    (cache : List ((Int × Int × ℚ) × Reports)) (lat lng radius : ℚ) :
    ((fetchReports env cache lat lng radius).2.1).find?
        (fun p => decide (p.1 = reportKey lat lng radius)) =
      some (reportKey lat lng radius, (fetchReports env cache lat lng radius).1) := by
  rw [fetchReports]
  cases hfind : cache.find? (fun p => decide (p.1 = reportKey lat lng radius)) with
  | some p =>
    simp only [hfind]
    have := List.find?_some hfind
    have hp : p.1 = reportKey lat lng radius := by simpa using this
    rw [← hp]
  | none =>
    simp only [hfind]
    rw [List.find?_cons_of_pos _ (by simp)]

/-- C7: two `fetchReports` calls whose coordinates round to the same
5-decimal key and that use the same exact radius issue the underlying
Overpass queries only once: the second call is served from the cache,
returns the same report, leaves the cache unchanged, and issues 0 queries. -/
theorem fetchReports_cached (env : OvQuery → List OElement)
    (cache : List ((Int × Int × ℚ) × Reports)) (lat1 lng1 lat2 lng2 radius : ℚ)
    (hkey : reportKey lat2 lng2 radius = reportKey lat1 lng1 radius) :
    fetchReports env (fetchReports env cache lat1 lng1 radius).2.1 lat2 lng2 radius =
      ((fetchReports env cache lat1 lng1 radius).1,
        (fetchReports env cache lat1 lng1 radius).2.1, 0) := by
  have hfind := fetchReports_find_after env cache lat1 lng1 radius
  rw [fetchReports]
  rw [hkey, hfind]

/-- Witness for C7: a concrete repeat call with identical coordinates is a
pure cache hit issuing 0 queries. -/
theorem fetchReports_cached_witness :
    fetchReports (fun _ => []) ((fetchReports (fun _ => []) [] 1 2 500).2.1) 1 2 500 =
      ((fetchReports (fun _ => []) [] 1 2 500).1,
        (fetchReports (fun _ => []) [] 1 2 500).2.1, 0) :=
  fetchReports_cached (fun _ => []) [] 1 2 1 2 500 rfl

theorem mem_dedupFirstAux [DecidableEq α] {c : α} :
    ∀ (l seen : List α), c ∈ dedupFirstAux seen l → c ∈ l := by
  intro l
  induction l with
  | nil => intro seen h; simp [dedupFirstAux] at h
  | cons a rest ih =>
    intro seen h
    rw [dedupFirstAux] at h
    by_cases hmem : a ∈ seen
    · rw [if_pos hmem] at h
      exact List.mem_cons_of_mem _ (ih seen h)
    · rw [if_neg hmem] at h
      rcases List.mem_cons.mp h with rfl | h2
      · exact List.mem_cons_self _ _
      · exact List.mem_cons_of_mem _ (ih (a :: seen) h2)

theorem dedupFirstAux_spec [DecidableEq α] :
    ∀ (l seen : List α),
      (dedupFirstAux seen l).Nodup ∧ ∀ c ∈ dedupFirstAux seen l, c ∉ seen := by
  intro l
  induction l with
  | nil => intro seen; simp [dedupFirstAux]
  | cons a rest ih =>
    intro seen
    rw [dedupFirstAux]
    by_cases hmem : a ∈ seen
    · rw [if_pos hmem]
      exact ih seen
    · rw [if_neg hmem]
      obtain ⟨hnd, havoid⟩ := ih (a :: seen)
      refine ⟨List.nodup_cons.mpr ⟨?_, hnd⟩, ?_⟩
      · intro hmem2
        exact (havoid a hmem2) (List.mem_cons_self _ _)
      · intro c hc
        rcases List.mem_cons.mp hc with rfl | h2
        · exact hmem
        · intro hsc
          exact (havoid c h2) (List.mem_cons_of_mem _ hsc)

/-- C5 amended: for every vicinity string, `extractRoadCandidates` returns
at most 3 candidates, each at least 4 characters long after cleaning, each
being the cleaning of either the first segment before a " - " separator or
a (trimmed) "junction X" phrase capture, and the returned list contains no
exact duplicate — the deduplication is by exact cleaned string
(case-sensitive), not case-insensitive. -/
theorem extractRoadCandidates_spec (v : Str) :
    (extractRoadCandidates v).length ≤ 3 ∧
    (∀ c ∈ extractRoadCandidates v, 4 ≤ c.length) ∧
    (∀ c ∈ extractRoadCandidates v,
      c = cleanRoadName ((splitOnSub (" - ".data) (replaceApos v)).headD []) ∨
      ∃ m ∈ junctionMatches (replaceApos v), c = cleanRoadName (trimWs m)) ∧
    (extractRoadCandidates v).Nodup := by
  have hunf : extractRoadCandidates v =
      (dedupFirst
        ((((if (splitOnSub (" - ".data) (replaceApos v)).headD [] = ([] : Str) then []
            else [(splitOnSub (" - ".data) (replaceApos v)).headD []]) ++
          (junctionMatches (replaceApos v)).filterMap
            (fun m => if trimWs m = ([] : Str) then none else some (trimWs m))).map
              cleanRoadName).filter (fun x => decide (4 ≤ x.length)))).take 3 := rfl
  refine ⟨?_, ?_, ?_, ?_⟩
  · rw [hunf]
    exact List.length_take_le 3 _
  · intro c hc
    rw [hunf] at hc
    have h1 := List.take_subset 3 _ hc
    have h2 := mem_dedupFirstAux _ [] h1
    have h3 := List.mem_filter.mp h2
    simpa using h3.2
  · intro c hc
    rw [hunf] at hc
    have h1 := List.take_subset 3 _ hc
    have h2 := mem_dedupFirstAux _ [] h1
    have h3 := (List.mem_filter.mp h2).1
    obtain ⟨r, hr, rfl⟩ := List.mem_map.mp h3
    rcases List.mem_append.mp hr with hleft | hright
    · left
      by_cases hfirst : (splitOnSub (" - ".data) (replaceApos v)).headD [] = ([] : Str)
      · rw [if_pos hfirst] at hleft
        simp at hleft
      · rw [if_neg hfirst] at hleft
        rw [List.mem_singleton.mp hleft]
    · right
      obtain ⟨m, hm, hg⟩ := List.mem_filterMap.mp hright
      refine ⟨m, hm, ?_⟩
      by_cases htrim : trimWs m = ([] : Str)
      · rw [if_pos htrim] at hg
        cases hg
      · rw [if_neg htrim] at hg
        rw [(Option.some.injEq _ _).mp hg]
  · rw [hunf]
    exact List.Nodup.sublist (List.take_sublist 3 _) (dedupFirstAux_spec _ []).1

/-- Witness for the amended C5 at a concrete vicinity string. -/
theorem extractRoadCandidates_spec_witness :
    (extractRoadCandidates (("MAIN ROAD - junction Main Road to X").data)).length ≤ 3 ∧
      (extractRoadCandidates (("MAIN ROAD - junction Main Road to X").data)).Nodup :=
  ⟨(extractRoadCandidates_spec (("MAIN ROAD - junction Main Road to X").data)).1,
    (extractRoadCandidates_spec (("MAIN ROAD - junction Main Road to X").data)).2.2.2⟩

/-- C5 counterexample: the deduplication is not case-insensitive — two
candidates differing only in letter case both appear, because the
JavaScript `Set` deduplicates the cleaned strings without lowering them. -/
theorem extractRoadCandidates_case_sensitive :
    extractRoadCandidates (("MAIN ROAD - junction Main Road to X").data) =
      [("MAIN ROAD").data, ("Main Road").data] ∧
      (("MAIN ROAD").data).map lowerChar = (("Main Road").data).map lowerChar ∧
      ("MAIN ROAD").data ≠ ("Main Road").data := by
  refine ⟨by decide, by decide, by decide⟩

/-- C8: the junction-bounded example parses into main road and the two
junction bounds, while the second example is rejected because its second
bound matches the non-road lexicon ("Property"): the second regex still
captures the bound, but the lexicon test rejects it and the parse yields
none. -/
theorem parseJunctionClip_examples :
    parseJunctionClip
        (("Upper Bonifacio St. - Junction Magsaysay Ave. to Junction Gen Luna Rd").data) =
      some ⟨("Upper Bonifacio St.").data, ("Magsaysay Ave.").data, ("Gen Luna Rd").data⟩ ∧
    matchM2 ((("Junction Magsaysay Ave. to Dr Cuesta").data) ++ apos :: (("s Property").data)) =
      some (("Magsaysay Ave.").data, (("Dr Cuesta").data) ++ apos :: (("s Property").data)) ∧
    badRoadName (cleanRoadName ((("Dr Cuesta").data) ++ apos :: (("s Property").data))) = true ∧
    parseJunctionClip
        ((("Upper Bonifacio St. - Junction Magsaysay Ave. to Dr Cuesta").data) ++
          apos :: (("s Property").data)) = none := by
  refine ⟨by decide, by decide, by decide, by decide⟩

theorem rdpScan_index_bound (dist : Pt → Frac) :
    ∀ (l : List Pt) (i0 : Nat) (m : Frac) (idx0 : Option Nat) (j : Nat),
      (rdpScan dist l i0 m idx0).2 = some j →
      idx0 = some j ∨ (i0 ≤ j ∧ j < i0 + l.length) := by
  intro l
  induction l with
  | nil =>
    intro i0 m idx0 j h
    rw [rdpScan] at h
    exact Or.inl h
  | cons p rest ih =>
    intro i0 m idx0 j h
    rw [rdpScan] at h
    by_cases hd : fltB m (dist p) = true
    · rw [if_pos hd] at h
      rcases ih (i0 + 1) (dist p) (some i0) j h with h2 | ⟨h2, h3⟩
      · right
        have : i0 = j := by simpa using h2
        subst this
        simp
      · right
        simp only [List.length_cons]
        omega
    · rw [if_neg hd] at h
      rcases ih (i0 + 1) m idx0 j h with h2 | ⟨h2, h3⟩
      · exact Or.inl h2
      · right
        simp only [List.length_cons]
        omega

theorem getLast?_cons_cons_getLastD (p q : α) (rest : List α) :
    (p :: q :: rest).getLast? = some ((q :: rest).getLastD q) := by
  rw [List.getLastD_eq_getLast?, List.getLast?_cons_cons]
  cases h : (q :: rest).getLast? with
  | none => simp at h
  | some x => rfl

theorem rdpGo_cons_cons (lonF eps : Frac) (fuel : Nat) (p q : Pt) (rest : List Pt) :
    rdpGo lonF eps (fuel + 1) (p :: q :: rest) =
      match rdpScan (fun x => perpDistSq lonF x p ((q :: rest).getLastD q))
          ((p :: q :: rest).drop 1).dropLast 1 f0 none with
      | (_, none) => [p, (q :: rest).getLastD q]
      | (dmax, some i) =>
        if fltB eps f0 || fltB (fmul eps eps) dmax then
          (rdpGo lonF eps fuel ((p :: q :: rest).take (i + 1))).dropLast ++
            rdpGo lonF eps fuel ((p :: q :: rest).drop i)
        else [p, (q :: rest).getLastD q] := rfl

theorem rdpGo_spec (lonF eps : Frac) :
    ∀ (fuel : Nat) (pts : List Pt),
      (rdpGo lonF eps fuel pts).head? = pts.head? ∧
      (rdpGo lonF eps fuel pts).getLast? = pts.getLast? ∧
      (2 ≤ pts.length →
        2 ≤ (rdpGo lonF eps fuel pts).length ∧
          (rdpGo lonF eps fuel pts).length ≤ pts.length) := by
  intro fuel
  induction fuel with
  | zero =>
    intro pts
    match pts with
    | [] => simp [rdpGo]
    | [p] => simp [rdpGo]
    | p :: q :: rest =>
      refine ⟨by rw [rdpGo]; rfl, ?_, ?_⟩
      · rw [rdpGo, getLast?_cons_cons_getLastD]
        rfl
      · intro _
        constructor
        · rw [rdpGo]; rfl
        · rw [rdpGo]
          simp only [List.length_cons, List.length_nil]
          omega
  | succ fuel ih =>
    intro pts
    match pts with
    | [] => simp [rdpGo]
    | [p] => simp [rdpGo]
    | p :: q :: rest =>
      rw [rdpGo_cons_cons]
      cases hscan : rdpScan (fun x => perpDistSq lonF x p ((q :: rest).getLastD q))
          ((p :: q :: rest).drop 1).dropLast 1 f0 none with
      | mk dmax idxo =>
        cases idxo with
        | none =>
          refine ⟨rfl, ?_, ?_⟩
          · rw [getLast?_cons_cons_getLastD]
            rfl
          · intro _
            refine ⟨by rfl, ?_⟩
            simp only [List.length_cons, List.length_nil]
            omega
        | some i =>
          dsimp only
          have hbound := rdpScan_index_bound _ _ _ _ _ i (by rw [hscan])
          have hinterior : (((p :: q :: rest).drop 1).dropLast).length = rest.length := by
            simp
          have hi : 1 ≤ i ∧ i ≤ rest.length := by
            rcases hbound with h2 | ⟨h2, h3⟩
            · cases h2
            · rw [hinterior] at h3
              omega
          by_cases hcond : (fltB eps f0 || fltB (fmul eps eps) dmax) = true
          · rw [if_pos hcond]
            have hlen : (p :: q :: rest).length = rest.length + 2 := by simp
            have htakelen : ((p :: q :: rest).take (i + 1)).length = i + 1 := by
              rw [List.length_take]
              omega
            have hdroplen : ((p :: q :: rest).drop i).length = rest.length + 2 - i := by
              rw [List.length_drop, hlen]
            obtain ⟨ihLh, ihLl, ihLlen⟩ := ih ((p :: q :: rest).take (i + 1))
            obtain ⟨ihRh, ihRl, ihRlen⟩ := ih ((p :: q :: rest).drop i)
            obtain ⟨hL2, hLle⟩ := ihLlen (by omega)
            obtain ⟨hR2, hRle⟩ := ihRlen (by omega)
            have hRne : rdpGo lonF eps fuel ((p :: q :: rest).drop i) ≠ [] := by
              intro hnil
              rw [hnil] at hR2
              simp at hR2
            refine ⟨?_, ?_, ?_⟩
            · rw [List.head?_append]
              rw [List.head?_dropLast]
              rw [if_pos (by omega)]
              rw [ihLh]
              have : ((p :: q :: rest).take (i + 1)).head? = some p := by
                cases i with
                | zero => omega
                | succ k => rfl
              rw [this]
              rfl
            · rw [List.getLast?_append]
              have hRlast : (rdpGo lonF eps fuel ((p :: q :: rest).drop i)).getLast? =
                  (p :: q :: rest).getLast? := by
                rw [ihRl]
                exact (getLast?_of_suffix (List.drop_suffix i _) (by
                  intro hnil
                  have := congrArg List.length hnil
                  rw [hdroplen] at this
                  simp at this
                  omega)).symm
              rw [hRlast]
              cases hpl : (p :: q :: rest).getLast? with
              | none => simp at hpl
              | some x => rfl
            · intro _
              rw [List.length_append, List.length_dropLast]
              constructor <;> omega
          · rw [if_neg hcond]
            refine ⟨rfl, ?_, ?_⟩
            · rw [getLast?_cons_cons_getLastD]
              rfl
            · intro _
              refine ⟨by rfl, ?_⟩
              simp only [List.length_cons, List.length_nil]
              omega

theorem range_filter_mod_length (s : Nat) (hs : 0 < s) :
    ∀ n, ((List.range n).filter (fun i => decide (i % s = 0))).length = (n + s - 1) / s := by
  intro n
  induction n with
  | zero =>
    rw [List.range_zero]
    rw [Nat.div_eq_of_lt (by omega)]
    rfl
  | succ n ihn =>
    rw [List.range_succ, List.filter_append, List.length_append, ihn]
    have hstep : n + 1 + s - 1 = (n + s - 1) + 1 := by omega
    rw [hstep, Nat.succ_div]
    have harg : n + s - 1 + 1 = n + s := by omega
    rw [harg]
    have hdvd : (s ∣ n + s) ↔ (s ∣ n) := Nat.dvd_add_self_right
    by_cases hmod : n % s = 0
    · have : s ∣ n + s := hdvd.mpr (Nat.dvd_iff_mod_eq_zero.mpr hmod)
      rw [if_pos this]
      simp [hmod]
    · have : ¬ s ∣ n + s := fun h => hmod (Nat.dvd_iff_mod_eq_zero.mp (hdvd.mp h))
      rw [if_neg this]
      simp [hmod]

theorem capTo500_head? (l : List α) : (capTo500 l).head? = l.head? := by
  rw [capTo500]
  by_cases hlen : 500 < l.length
  · rw [if_pos hlen]
    cases l with
    | nil => simp at hlen
    | cons a t =>
      rw [List.enum_cons]
      rw [List.filter_cons_of_pos (by simp)]
      rfl
  · rw [if_neg hlen]

theorem capTo500_length_le (l : List α) : (capTo500 l).length ≤ l.length := by
  rw [capTo500]
  by_cases hlen : 500 < l.length
  · rw [if_pos hlen]
    rw [List.length_map]
    calc (l.enum.filter _).length ≤ l.enum.length := List.length_filter_le _ _
      _ = l.length := List.enum_length
  · rw [if_neg hlen]

theorem capTo500_length_le_500 (l : List α) : (capTo500 l).length ≤ 500 := by
  rw [capTo500]
  by_cases hlen : 500 < l.length
  · rw [if_pos hlen]
    set s := (l.length + 499) / 500 with hs_def
    have hs : 0 < s := by omega
    have h1 : ((l.enum.filter (fun q => decide (q.1 % s = 0))).map Prod.snd).length =
        ((List.range l.length).filter (fun i => decide (i % s = 0))).length := by
      rw [List.length_map]
      rw [← List.countP_eq_length_filter, ← List.countP_eq_length_filter]
      rw [← List.enum_map_fst l, List.countP_map]
      rfl
    rw [h1, range_filter_mod_length s hs l.length]
    have hle : l.length ≤ 500 * s := by omega
    calc (l.length + s - 1) / s ≤ (s - 1 + s * 500) / s :=
          Nat.div_le_div_right (by omega)
      _ = (s - 1) / s + 500 := Nat.add_mul_div_left _ _ hs
      _ = 0 + 500 := by rw [Nat.div_eq_of_lt (by omega)]
      _ ≤ 500 := by omega
  · rw [if_neg hlen]
    omega

theorem capTo500_of_le (l : List α) (h : l.length ≤ 500) : capTo500 l = l := by
  rw [capTo500, if_neg (by omega)]

/-- C4 amended: the simplification step (recursive perpendicular-distance
reduction followed by the stride subsampling) always preserves the first
point, its output length is at most the input length and at most 500 — but
the final point is only guaranteed to survive when the recursive reduction
already produced at most 500 points, so that the stride subsampling is
skipped; when the subsampling runs it keeps only indices divisible by the
stride, and the last index need not be one of them. -/
theorem simplifyAndCap_spec (lonF : Frac) (pts : List Pt) (eps : Frac)
    (h2 : 2 ≤ pts.length) :
    (simplifyAndCap lonF pts eps).head? = pts.head? ∧
    (simplifyAndCap lonF pts eps).length ≤ pts.length ∧
    (simplifyAndCap lonF pts eps).length ≤ 500 ∧
    ((simplifyRDP lonF pts eps).length ≤ 500 →
      (simplifyAndCap lonF pts eps).getLast? = pts.getLast?) := by
  obtain ⟨hh, hl, hlen⟩ := rdpGo_spec lonF eps pts.length pts
  have hsimp : (simplifyRDP lonF pts eps).head? = pts.head? ∧
      (simplifyRDP lonF pts eps).getLast? = pts.getLast? ∧
      (simplifyRDP lonF pts eps).length ≤ pts.length := by
    rw [simplifyRDP]
    by_cases hsmall : pts.length ≤ 2
    · rw [if_pos hsmall]
      exact ⟨rfl, rfl, le_refl _⟩
    · rw [if_neg hsmall]
      exact ⟨hh, hl, (hlen h2).2⟩
  refine ⟨?_, ?_, ?_, ?_⟩
  · rw [simplifyAndCap, capTo500_head?, hsimp.1]
  · rw [simplifyAndCap]
    calc (capTo500 (simplifyRDP lonF pts eps)).length
        ≤ (simplifyRDP lonF pts eps).length := capTo500_length_le _
      _ ≤ pts.length := hsimp.2.2
  · rw [simplifyAndCap]
    exact capTo500_length_le_500 _
  · intro hle
    rw [simplifyAndCap, capTo500_of_le _ hle, hsimp.2.1]

/-- Witness for the amended C4 at a concrete three-point input. -/
theorem simplifyAndCap_spec_witness :
    (simplifyAndCap f111320 [(f0, f0), (f1, f1), (⟨2, 1⟩, ⟨2, 1⟩)] f0).head? =
        some (f0, f0) ∧
      (simplifyAndCap f111320 [(f0, f0), (f1, f1), (⟨2, 1⟩, ⟨2, 1⟩)] f0).getLast? =
        some ((⟨2, 1⟩ : Frac), (⟨2, 1⟩ : Frac)) := by
  obtain ⟨hh, _, _, hlast⟩ :=
    simplifyAndCap_spec f111320 [(f0, f0), (f1, f1), (⟨2, 1⟩, ⟨2, 1⟩)] f0 (by decide)
  exact ⟨hh, hlast (by decide)⟩

theorem FPos_fadd {a b : Frac} (ha : FPos a) (hb : FPos b) : FPos (fadd a b) :=
  mul_pos ha hb

theorem FPos_fsub {a b : Frac} (ha : FPos a) (hb : FPos b) : FPos (fsub a b) :=
  mul_pos ha hb

theorem FPos_fmul {a b : Frac} (ha : FPos a) (hb : FPos b) : FPos (fmul a b) :=
  mul_pos ha hb

theorem FPos_fdiv {a b : Frac} (ha : FPos a) (hn : b.num ≠ 0) :
    FPos (fdiv a b) := by
  have ha0 : (0 : Int) < a.den := ha
  rw [fdiv]
  by_cases hneg : b.num < 0
  · rw [if_pos hneg]
    show 0 < -(a.den * b.num)
    have : a.den * b.num < 0 := mul_neg_of_pos_of_neg ha0 hneg
    omega
  · rw [if_neg hneg]
    show 0 < a.den * b.num
    exact mul_pos ha0 (by omega)

theorem FPos_f0 : FPos f0 := by
  show (0 : Int) < 1
  decide

theorem FPos_f1 : FPos f1 := by
  show (0 : Int) < 1
  decide

theorem FPos_f111320 : FPos f111320 := by
  show (0 : Int) < 1
  decide

theorem fval_fadd {a b : Frac} (ha : FPos a) (hb : FPos b) :
    fval (fadd a b) = fval a + fval b := by
  have ha' : (a.den : ℚ) ≠ 0 := Int.cast_ne_zero.mpr (ne_of_gt ha)
  have hb' : (b.den : ℚ) ≠ 0 := Int.cast_ne_zero.mpr (ne_of_gt hb)
  show ((a.num * b.den + b.num * a.den : Int) : ℚ) / ((a.den * b.den : Int) : ℚ) = _
  simp only [fval]
  push_cast
  field_simp

theorem fval_fsub {a b : Frac} (ha : FPos a) (hb : FPos b) :
    fval (fsub a b) = fval a - fval b := by
  have ha' : (a.den : ℚ) ≠ 0 := Int.cast_ne_zero.mpr (ne_of_gt ha)
  have hb' : (b.den : ℚ) ≠ 0 := Int.cast_ne_zero.mpr (ne_of_gt hb)
  show ((a.num * b.den - b.num * a.den : Int) : ℚ) / ((a.den * b.den : Int) : ℚ) = _
  simp only [fval]
  push_cast
  field_simp
  ring

theorem fval_fmul {a b : Frac} (ha : FPos a) (hb : FPos b) :
    fval (fmul a b) = fval a * fval b := by
  have ha' : (a.den : ℚ) ≠ 0 := Int.cast_ne_zero.mpr (ne_of_gt ha)
  have hb' : (b.den : ℚ) ≠ 0 := Int.cast_ne_zero.mpr (ne_of_gt hb)
  show ((a.num * b.num : Int) : ℚ) / ((a.den * b.den : Int) : ℚ) = _
  simp only [fval]
  push_cast
  field_simp

theorem fval_fdiv {a b : Frac} (ha : FPos a) (hb : FPos b) (hn : b.num ≠ 0) :
    fval (fdiv a b) = fval a / fval b := by
  have ha0 : (0 : Int) < a.den := ha
  have ha' : (a.den : ℚ) ≠ 0 := Int.cast_ne_zero.mpr (ne_of_gt ha)
  have hb' : (b.den : ℚ) ≠ 0 := Int.cast_ne_zero.mpr (ne_of_gt hb)
  have hn' : (b.num : ℚ) ≠ 0 := Int.cast_ne_zero.mpr hn
  rw [fdiv]
  by_cases hneg : b.num < 0
  · rw [if_pos hneg]
    show ((-(a.num * b.den) : Int) : ℚ) / ((-(a.den * b.num) : Int) : ℚ) = _
    simp only [fval]
    push_cast
    rw [div_div_div_eq]
    rw [neg_div_neg_eq]
  · rw [if_neg hneg]
    show ((a.num * b.den : Int) : ℚ) / ((a.den * b.num : Int) : ℚ) = _
    simp only [fval]
    push_cast
    rw [div_div_div_eq]

theorem fltB_iff {a b : Frac} (ha : FPos a) (hb : FPos b) :
    fltB a b = true ↔ fval a < fval b := by
  have ha0 : (0 : Int) < a.den := ha
  have hb0 : (0 : Int) < b.den := hb
  have ha' : (0 : ℚ) < (a.den : ℚ) := by exact_mod_cast ha0
  have hb' : (0 : ℚ) < (b.den : ℚ) := by exact_mod_cast hb0
  rw [fltB, decide_eq_true_iff]
  rw [fval, fval, div_lt_div_iff ha' hb']
  constructor
  · intro h
    exact_mod_cast h
  · intro h
    exact_mod_cast h

theorem fzeroB_iff {a : Frac} (ha : FPos a) : fzeroB a = true ↔ fval a = 0 := by
  have ha0 : (0 : Int) < a.den := ha
  have ha' : (a.den : ℚ) ≠ 0 := Int.cast_ne_zero.mpr (by omega)
  rw [fzeroB, beq_iff_eq, fval, div_eq_zero_iff]
  constructor
  · intro h
    exact Or.inl (by exact_mod_cast h)
  · intro h
    rcases h with h | h
    · exact_mod_cast h
    · exact absurd h ha'

theorem fval_f0 : fval f0 = 0 := by
  norm_num [fval, f0]

theorem num_ne_zero_of_fval {a : Frac} (h : fval a ≠ 0) : a.num ≠ 0 := by
  intro hnum
  exact h (by simp [fval, hnum])

theorem fval_ne_zero {a : Frac} (ha : FPos a) (h : a.num ≠ 0) : fval a ≠ 0 := by
  have ha0 : (0 : Int) < a.den := ha
  rw [fval, div_ne_zero_iff]
  constructor
  · exact Int.cast_ne_zero.mpr h
  · exact Int.cast_ne_zero.mpr (by omega)

theorem fzeroB_false_num {a : Frac} (h : ¬ fzeroB a = true) : a.num ≠ 0 := by
  simpa [fzeroB] using h

theorem clampSumSq_pos (w1 w2 d1 d2 tt : ℚ)
    (hcross : w1 * d2 - w2 * d1 ≠ 0) :
    0 < (w1 - tt * d1) * (w1 - tt * d1) + (w2 - tt * d2) * (w2 - tt * d2) := by
  rcases lt_or_le 0 ((w1 - tt * d1) * (w1 - tt * d1) + (w2 - tt * d2) * (w2 - tt * d2)) with h | h
  · exact h
  · exfalso
    have h1 : w1 - tt * d1 = 0 := by nlinarith [mul_self_nonneg (w1 - tt * d1), mul_self_nonneg (w2 - tt * d2)]
    have h2 : w2 - tt * d2 = 0 := by nlinarith [mul_self_nonneg (w1 - tt * d1), mul_self_nonneg (w2 - tt * d2)]
    apply hcross
    have e1 : w1 = tt * d1 := by linarith
    have e2 : w2 = tt * d2 := by linarith
    rw [e1, e2]
    ring

theorem perpDistSq_pos (lonF : Frac) (p a b : Pt)
    (hp1 : FPos p.1) (hp2 : FPos p.2) (ha1 : FPos a.1) (ha2 : FPos a.2)
    (hb1 : FPos b.1) (hb2 : FPos b.2) (hlf : FPos lonF)
    (hcross :
      (fval p.2 * fval lonF - fval a.2 * fval lonF) *
          (fval b.1 * fval f111320 - fval a.1 * fval f111320) -
        (fval p.1 * fval f111320 - fval a.1 * fval f111320) *
          (fval b.2 * fval lonF - fval a.2 * fval lonF) ≠ 0) :
    fltB f0 (perpDistSq lonF p a b) = true := by
  have hf320 : FPos f111320 := FPos_f111320
  have hDXpos : FPos (fsub (fmul b.2 lonF) (fmul a.2 lonF)) :=
    FPos_fsub (FPos_fmul hb2 hlf) (FPos_fmul ha2 hlf)
  have hDYpos : FPos (fsub (fmul b.1 f111320) (fmul a.1 f111320)) :=
    FPos_fsub (FPos_fmul hb1 hf320) (FPos_fmul ha1 hf320)
  have hDXval : fval (fsub (fmul b.2 lonF) (fmul a.2 lonF)) =
      fval b.2 * fval lonF - fval a.2 * fval lonF := by
    rw [fval_fsub (FPos_fmul hb2 hlf) (FPos_fmul ha2 hlf),
      fval_fmul hb2 hlf, fval_fmul ha2 hlf]
  have hDYval : fval (fsub (fmul b.1 f111320) (fmul a.1 f111320)) =
      fval b.1 * fval f111320 - fval a.1 * fval f111320 := by
    rw [fval_fsub (FPos_fmul hb1 hf320) (FPos_fmul ha1 hf320),
      fval_fmul hb1 hf320, fval_fmul ha1 hf320]
  have hW1pos : FPos (fsub (fmul p.2 lonF) (fmul a.2 lonF)) :=
    FPos_fsub (FPos_fmul hp2 hlf) (FPos_fmul ha2 hlf)
  have hW2pos : FPos (fsub (fmul p.1 f111320) (fmul a.1 f111320)) :=
    FPos_fsub (FPos_fmul hp1 hf320) (FPos_fmul ha1 hf320)
  have hW1val : fval (fsub (fmul p.2 lonF) (fmul a.2 lonF)) =
      fval p.2 * fval lonF - fval a.2 * fval lonF := by
    rw [fval_fsub (FPos_fmul hp2 hlf) (FPos_fmul ha2 hlf),
      fval_fmul hp2 hlf, fval_fmul ha2 hlf]
  have hW2val : fval (fsub (fmul p.1 f111320) (fmul a.1 f111320)) =
      fval p.1 * fval f111320 - fval a.1 * fval f111320 := by
    rw [fval_fsub (FPos_fmul hp1 hf320) (FPos_fmul ha1 hf320),
      fval_fmul hp1 hf320, fval_fmul ha1 hf320]
  by_cases hguard :
      fzeroB (fsub (fmul b.2 lonF) (fmul a.2 lonF)) = true ∧
        fzeroB (fsub (fmul b.1 f111320) (fmul a.1 f111320)) = true
  · exfalso
    apply hcross
    have h1 : fval (fsub (fmul b.2 lonF) (fmul a.2 lonF)) = 0 :=
      (fzeroB_iff hDXpos).mp hguard.1
    have h2 : fval (fsub (fmul b.1 f111320) (fmul a.1 f111320)) = 0 :=
      (fzeroB_iff hDYpos).mp hguard.2
    rw [hDXval] at h1
    rw [hDYval] at h2
    rw [h1, h2]
    ring
  · simp only [perpDistSq, toXY]
    rw [if_neg hguard]
    set DX := fsub (fmul b.2 lonF) (fmul a.2 lonF) with hDX
    set DY := fsub (fmul b.1 f111320) (fmul a.1 f111320) with hDY
    set W1 := fsub (fmul p.2 lonF) (fmul a.2 lonF) with hW1
    set W2 := fsub (fmul p.1 f111320) (fmul a.1 f111320) with hW2
    have hlen2pos : FPos (fadd (fmul DX DX) (fmul DY DY)) :=
      FPos_fadd (FPos_fmul hDXpos hDXpos) (FPos_fmul hDYpos hDYpos)
    have hdnz : fval DX ≠ 0 ∨ fval DY ≠ 0 := by
      rcases not_and_or.mp hguard with h | h
      · exact Or.inl (fval_ne_zero hDXpos (fzeroB_false_num h))
      · exact Or.inr (fval_ne_zero hDYpos (fzeroB_false_num h))
    have hlen2val : fval (fadd (fmul DX DX) (fmul DY DY)) =
        fval DX * fval DX + fval DY * fval DY := by
      rw [fval_fadd (FPos_fmul hDXpos hDXpos) (FPos_fmul hDYpos hDYpos),
        fval_fmul hDXpos hDXpos, fval_fmul hDYpos hDYpos]
    have hlen2ne : fval (fadd (fmul DX DX) (fmul DY DY)) ≠ 0 := by
      rw [hlen2val]
      rcases hdnz with h | h
      · nlinarith [mul_self_nonneg (fval DX), mul_self_nonneg (fval DY),
          mul_self_pos.mpr h]
      · nlinarith [mul_self_nonneg (fval DX), mul_self_nonneg (fval DY),
          mul_self_pos.mpr h]
    have hlen2num : (fadd (fmul DX DX) (fmul DY DY)).num ≠ 0 :=
      num_ne_zero_of_fval hlen2ne
    set T := fdiv (fadd (fmul W1 DX) (fmul W2 DY)) (fadd (fmul DX DX) (fmul DY DY))
      with hT
    have hTpos : FPos T :=
      FPos_fdiv (FPos_fadd (FPos_fmul hW1pos hDXpos) (FPos_fmul hW2pos hDYpos)) hlen2num
    set TT := if fltB T f0 = true then f0 else if fltB f1 T = true then f1 else T with hTT
    have hTTpos : FPos TT := by
      rw [hTT]
      by_cases h1 : fltB T f0 = true
      · rw [if_pos h1]; exact FPos_f0
      · rw [if_neg h1]
        by_cases h2 : fltB f1 T = true
        · rw [if_pos h2]; exact FPos_f1
        · rw [if_neg h2]; exact hTpos
    have hUpos : FPos (fsub (fmul p.2 lonF) (fadd (fmul a.2 lonF) (fmul TT DX))) :=
      FPos_fsub (FPos_fmul hp2 hlf) (FPos_fadd (FPos_fmul ha2 hlf) (FPos_fmul hTTpos hDXpos))
    have hVpos : FPos (fsub (fmul p.1 f111320) (fadd (fmul a.1 f111320) (fmul TT DY))) :=
      FPos_fsub (FPos_fmul hp1 hf320) (FPos_fadd (FPos_fmul ha1 hf320) (FPos_fmul hTTpos hDYpos))
    rw [fltB_iff FPos_f0 (FPos_fadd (FPos_fmul hUpos hUpos) (FPos_fmul hVpos hVpos))]
    rw [fval_f0]
    rw [fval_fadd (FPos_fmul hUpos hUpos) (FPos_fmul hVpos hVpos),
      fval_fmul hUpos hUpos, fval_fmul hVpos hVpos]
    have hUval : fval (fsub (fmul p.2 lonF) (fadd (fmul a.2 lonF) (fmul TT DX))) =
        fval W1 - fval TT * fval DX := by
      rw [fval_fsub (FPos_fmul hp2 hlf)
          (FPos_fadd (FPos_fmul ha2 hlf) (FPos_fmul hTTpos hDXpos)),
        fval_fmul hp2 hlf,
        fval_fadd (FPos_fmul ha2 hlf) (FPos_fmul hTTpos hDXpos),
        fval_fmul ha2 hlf, fval_fmul hTTpos hDXpos]
      rw [hW1val]
      ring
    have hVval : fval (fsub (fmul p.1 f111320) (fadd (fmul a.1 f111320) (fmul TT DY))) =
        fval W2 - fval TT * fval DY := by
      rw [fval_fsub (FPos_fmul hp1 hf320)
          (FPos_fadd (FPos_fmul ha1 hf320) (FPos_fmul hTTpos hDYpos)),
        fval_fmul hp1 hf320,
        fval_fadd (FPos_fmul ha1 hf320) (FPos_fmul hTTpos hDYpos),
        fval_fmul ha1 hf320, fval_fmul hTTpos hDYpos]
      rw [hW2val]
      ring
    rw [hUval, hVval]
    rw [hW1val, hW2val, hDXval, hDYval]
    apply clampSumSq_pos
    exact hcross

theorem rdpScan_some_of_some (dist : Pt → Frac) :
    ∀ (l : List Pt) (i0 : Nat) (m : Frac) (j : Nat),
      ∃ d k, rdpScan dist l i0 m (some j) = (d, some k) := by
  intro l
  induction l with
  | nil =>
    intro i0 m j
    exact ⟨m, j, rfl⟩
  | cons p rest ih =>
    intro i0 m j
    rw [rdpScan]
    by_cases hd : fltB m (dist p) = true
    · rw [if_pos hd]
      exact ih (i0 + 1) (dist p) i0
    · rw [if_neg hd]
      exact ih (i0 + 1) m j

theorem paraSeg_zero (n s : Int) (a : Nat) : paraSeg n s a 0 = [] := rfl

theorem paraSeg_succ_cons (n s : Int) (a m : Nat) :
    paraSeg n s a (m + 1) = paraPt n s a :: paraSeg n s (a + 1) m := by
  simp only [paraSeg, List.range_succ_eq_map, List.map_cons, List.map_map, Nat.add_zero]
  congr 1
  apply List.map_congr_left
  intro k _
  simp only [Function.comp_apply]
  congr 1
  omega

theorem paraSeg_length (n s : Int) (a m : Nat) : (paraSeg n s a m).length = m := by
  simp [paraSeg]

theorem paraSeg_snoc (n s : Int) (a m : Nat) :
    paraSeg n s a (m + 1) = paraSeg n s a m ++ [paraPt n s (a + m)] := by
  rw [paraSeg, List.range_succ, List.map_append]
  rfl

theorem paraSeg_getLastD (n s : Int) (a m : Nat) (d : Pt) :
    (paraSeg n s a (m + 1)).getLastD d = paraPt n s (a + m) := by
  rw [paraSeg_snoc, List.getLastD_eq_getLast?, List.getLast?_concat]
  rfl

theorem paraSeg_take (n s : Int) :
    ∀ (k a m : Nat), k ≤ m → (paraSeg n s a m).take k = paraSeg n s a k := by
  intro k
  induction k with
  | zero =>
    intro a m _
    simp [paraSeg_zero]
  | succ k ih =>
    intro a m hk
    cases m with
    | zero => omega
    | succ m =>
      rw [paraSeg_succ_cons, List.take_succ_cons, ih (a + 1) m (by omega),
        paraSeg_succ_cons]

theorem paraSeg_drop (n s : Int) :
    ∀ (i a m : Nat), i ≤ m → (paraSeg n s a m).drop i = paraSeg n s (a + i) (m - i) := by
  intro i
  induction i with
  | zero =>
    intro a m _
    simp
  | succ i ih =>
    intro a m hi
    cases m with
    | zero => omega
    | succ m =>
      rw [paraSeg_succ_cons, List.drop_succ_cons, ih (a + 1) m (by omega)]
      have e1 : a + 1 + i = a + (i + 1) := by omega
      have e2 : m - i = m + 1 - (i + 1) := by omega
      rw [e1, e2]

theorem paraSeg_append (n s : Int) :
    ∀ (m1 a m2 : Nat), paraSeg n s a m1 ++ paraSeg n s (a + m1) m2 = paraSeg n s a (m1 + m2) := by
  intro m1
  induction m1 with
  | zero =>
    intro a m2
    simp [paraSeg_zero]
  | succ m1 ih =>
    intro a m2
    rw [paraSeg_succ_cons, List.cons_append]
    have e1 : a + (m1 + 1) = a + 1 + m1 := by omega
    rw [e1, ih (a + 1) m2]
    have e2 : m1 + 1 + m2 = (m1 + m2) + 1 := by omega
    rw [e2, paraSeg_succ_cons]

theorem fval_paraPt_lat (n s : Int) (i : Nat) :
    fval (paraPt n s i).1 * fval f111320 = ((n : ℚ) * i * i - s) / n * 111320 / 111320 := by
  show ((n * i * i - s : Int) : ℚ) / ((n * 111320 : Int) : ℚ) * (((111320 : Int) : ℚ) / ((1 : Int) : ℚ)) =
    ((n : ℚ) * i * i - s) / n * 111320 / 111320
  push_cast
  ring

theorem fval_paraPt_lon (n s : Int) (i : Nat) :
    fval (paraPt n s i).2 * fval f111320 = (i : ℚ) / 111320 * 111320 := by
  show ((i : Int) : ℚ) / ((111320 : Int) : ℚ) * (((111320 : Int) : ℚ) / ((1 : Int) : ℚ)) =
    (i : ℚ) / 111320 * 111320
  push_cast
  ring

theorem FPos_paraPt_lat (n s : Int) (hn : 0 < n) (i : Nat) : FPos (paraPt n s i).1 := by
  show (0 : Int) < n * 111320
  have h : (0 : Int) < 111320 := by norm_num
  exact mul_pos hn h

theorem FPos_paraPt_lon (n s : Int) (i : Nat) : FPos (paraPt n s i).2 := by
  show (0 : Int) < 111320
  norm_num

theorem paraPt_dist_pos (n s : Int) (hn : 0 < n) (a j b : Nat)
    (haj : a < j) (hjb : j < b) :
    fltB f0 (perpDistSq f111320 (paraPt n s j) (paraPt n s a) (paraPt n s b)) = true := by
  apply perpDistSq_pos f111320 (paraPt n s j) (paraPt n s a) (paraPt n s b)
    (FPos_paraPt_lat n s hn j) (FPos_paraPt_lon n s j)
    (FPos_paraPt_lat n s hn a) (FPos_paraPt_lon n s a)
    (FPos_paraPt_lat n s hn b) (FPos_paraPt_lon n s b)
    FPos_f111320
  rw [fval_paraPt_lon n s j, fval_paraPt_lon n s a, fval_paraPt_lon n s b,
    fval_paraPt_lat n s j, fval_paraPt_lat n s a, fval_paraPt_lat n s b]
  have hne : (n : ℚ) ≠ 0 := Int.cast_ne_zero.mpr (by omega)
  have h320 : (111320 : ℚ) ≠ 0 := by norm_num
  have h1 : (a : ℚ) < (j : ℚ) := by exact_mod_cast haj
  have h2 : (j : ℚ) < (b : ℚ) := by exact_mod_cast hjb
  have key : ((j : ℚ) / 111320 * 111320 - (a : ℚ) / 111320 * 111320) *
        (((n : ℚ) * b * b - s) / n * 111320 / 111320 - ((n : ℚ) * a * a - s) / n * 111320 / 111320) -
      (((n : ℚ) * j * j - s) / n * 111320 / 111320 - ((n : ℚ) * a * a - s) / n * 111320 / 111320) *
        ((b : ℚ) / 111320 * 111320 - (a : ℚ) / 111320 * 111320) =
      ((b : ℚ) - a) * ((j : ℚ) - a) * ((b : ℚ) - j) := by
    field_simp
    ring
  rw [key]
  apply ne_of_gt
  have hab : (a : ℚ) < (b : ℚ) := lt_trans h1 h2
  nlinarith [mul_pos (mul_pos (sub_pos.mpr hab) (sub_pos.mpr h1)) (sub_pos.mpr h2)]

set_option maxRecDepth 4000 in
theorem rdpGo_paraSeg (n s : Int) (eps : Frac) (hn : 0 < n) (heps : fltB eps f0 = true) :
    ∀ (fuel a m : Nat), m ≤ fuel + 2 →
      rdpGo f111320 eps fuel (paraSeg n s a m) = paraSeg n s a m := by
  intro fuel
  induction fuel with
  | zero =>
    intro a m hm
    interval_cases m
    · rfl
    · rfl
    · rfl
  | succ fuel ih =>
    intro a m hm
    obtain _ | _ | _ | m3 := m
    · rfl
    · rw [show paraSeg n s a 1 = [paraPt n s a] from by
        rw [paraSeg_succ_cons, paraSeg_zero]]
      rfl
    · rw [show paraSeg n s a 2 = [paraPt n s a, paraPt n s (a + 1)] from by
        rw [paraSeg_succ_cons, paraSeg_succ_cons, paraSeg_zero]]
      rw [rdpGo_cons_cons]
      rfl
    · have hcons : paraSeg n s a (m3 + 3) =
          paraPt n s a :: paraPt n s (a + 1) :: paraSeg n s (a + 2) (m3 + 1) := by
        rw [paraSeg_succ_cons, paraSeg_succ_cons]
      rw [hcons, rdpGo_cons_cons]
      have hlast : (paraPt n s (a + 1) :: paraSeg n s (a + 2) (m3 + 1)).getLastD
          (paraPt n s (a + 1)) = paraPt n s (a + m3 + 2) := by
        have hfold : paraPt n s (a + 1) :: paraSeg n s (a + 2) (m3 + 1) =
            paraSeg n s (a + 1) (m3 + 1 + 1) :=
          (paraSeg_succ_cons n s (a + 1) (m3 + 1)).symm
        rw [hfold, paraSeg_getLastD]
        congr 1
        omega
      rw [hlast]
      have hint1 : ((paraPt n s a :: paraPt n s (a + 1) ::
          paraSeg n s (a + 2) (m3 + 1)).drop 1).dropLast =
          paraPt n s (a + 1) :: paraSeg n s (a + 2) m3 := by
        show (paraPt n s (a + 1) :: paraSeg n s (a + 2) (m3 + 1)).dropLast =
          paraPt n s (a + 1) :: paraSeg n s (a + 2) m3
        have hfold2 : paraPt n s (a + 1) :: paraSeg n s (a + 2) (m3 + 1) =
            paraSeg n s (a + 1) (m3 + 1 + 1) :=
          (paraSeg_succ_cons n s (a + 1) (m3 + 1)).symm
        rw [hfold2, paraSeg_snoc, List.dropLast_concat, paraSeg_succ_cons]
      rw [hint1]
      rw [rdpScan]
      rw [if_pos (paraPt_dist_pos n s hn a (a + 1) (a + m3 + 2) (by omega) (by omega))]
      obtain ⟨d, k, hk⟩ := rdpScan_some_of_some
        (fun x => perpDistSq f111320 x (paraPt n s a) (paraPt n s (a + m3 + 2)))
        (paraSeg n s (a + 2) m3) (1 + 1)
        (perpDistSq f111320 (paraPt n s (a + 1)) (paraPt n s a) (paraPt n s (a + m3 + 2))) 1
      rw [hk]
      dsimp only
      have hguard : (fltB eps f0 || fltB (fmul eps eps) d) = true := by
        rw [heps]
        rfl
      rw [if_pos hguard]
      have hbound := rdpScan_index_bound
        (fun x => perpDistSq f111320 x (paraPt n s a) (paraPt n s (a + m3 + 2)))
        (paraSeg n s (a + 2) m3) (1 + 1)
        (perpDistSq f111320 (paraPt n s (a + 1)) (paraPt n s a) (paraPt n s (a + m3 + 2)))
        (some 1) k (by rw [hk])
      have hklen : k ≤ m3 + 1 := by
        rcases hbound with h | ⟨h1, h2⟩
        · injection h with h
          omega
        · rw [paraSeg_length] at h2
          omega
      have hk1 : 1 ≤ k := by
        rcases hbound with h | ⟨h1, h2⟩
        · injection h with h
          omega
        · omega
      have hfull : paraPt n s a :: paraPt n s (a + 1) :: paraSeg n s (a + 2) (m3 + 1) =
          paraSeg n s a (m3 + 3) := hcons.symm
      rw [hfull]
      rw [paraSeg_take n s (k + 1) a (m3 + 3) (by omega),
        paraSeg_drop n s k a (m3 + 3) (by omega)]
      rw [ih a (k + 1) (by omega), ih (a + k) (m3 + 3 - k) (by omega)]
      have hleft : (paraSeg n s a (k + 1)).dropLast = paraSeg n s a k := by
        rw [paraSeg_snoc, List.dropLast_concat]
      rw [hleft]
      have happ := paraSeg_append n s k a (m3 + 3 - k)
      rw [show k + (m3 + 3 - k) = m3 + 3 from by omega] at happ
      exact happ

theorem parabola_length (count : Nat) (s : Int) : (parabola count s).length = count := by
  simp [parabola]

theorem parabola_eq_paraSeg (count : Nat) (s : Int) :
    parabola count s = paraSeg (count : Int) s 0 count := by
  simp only [parabola, paraSeg]
  apply List.map_congr_left
  intro k _
  congr 1
  omega

set_option maxRecDepth 40000 in
/-- **C4** (counterexample).  The claim says the simplification step always
preserves the last input point.  On a strictly convex 502-point polyline
(whose mean latitude is exactly 0, so the source's `lonFactor` is exactly
`111320 * cos 0 = 111320`) and any negative epsilon, the recursive reduction
keeps all 502 points, and the stride subsampling (step `ceil(502/500) = 2`,
keeping indices `0, 2, …, 500`) then drops the final point: the output ends
at the index-500 point, not the input's last (index-501) point. -/
theorem simplify_cap_drops_last_point :
    (((parabola 502 42042751).map (fun p => p.1.num)).sum = 0 ∧
      (∀ p ∈ parabola 502 42042751, p.1.den = 502 * 111320) ∧
      (parabola 502 42042751).length = 502) ∧
    simplifyRDP f111320 (parabola 502 42042751) fneg1 = parabola 502 42042751 ∧
    (parabola 502 42042751).getLast? = some (paraPt 502 42042751 501) ∧
    (simplifyAndCap f111320 (parabola 502 42042751) fneg1).getLast? =
      some (paraPt 502 42042751 500) ∧
    paraPt 502 42042751 500 ≠ paraPt 502 42042751 501 := by
  have hrdp : simplifyRDP f111320 (parabola 502 42042751) fneg1 = parabola 502 42042751 := by
    simp only [simplifyRDP, parabola_length]
    rw [if_neg (by norm_num)]
    rw [parabola_eq_paraSeg]
    exact rdpGo_paraSeg ((502 : Nat) : Int) 42042751 fneg1 (by norm_num) (by decide)
      502 0 502 (by omega)
  refine ⟨⟨by decide, by decide, by decide⟩, hrdp, by decide, ?_, by decide⟩
  simp only [simplifyAndCap]
  rw [hrdp]
  decide
